import Mathlib

/-!
Verification development for the markdown-book structure-detection engine
(`structure_detector.py`, `config.py`, `book_writer.py`).

The Python code is shallowly embedded:
* file system state is an explicit finite map from paths (component lists)
  to file contents (the list of lines obtained from `str.split('\n')`),
* values produced by `yaml.safe_load` / `tomllib.loads` are an inductive
  `Yaml` type, and the Python operations the detector applies to them
  (`in`, indexing, `.get`, `int(...)`, iteration, truthiness) are embedded
  as `Except`-valued functions that report the exception kind Python would
  raise,
* every fallible code path returns `Except PyErr _`; the detector's own
  `try/except` blocks are translated as the corresponding recoveries.

`yaml.safe_load` itself is modelled by `miniYamlE`, a loader that agrees
with PyYAML on the document shapes exercised here (blank documents, a
single scalar, a flat `key: value` mapping) and reports everything else as
a parse failure.  Python floats and YAML flow collections are outside the
model; no claim depends on them.
-/

namespace MdBook

/-- Kinds of Python exceptions that can escape the detector's local handlers. -/
inductive PyErr where
  | typeError
  | attributeError
  | valueError
  | keyError
  deriving DecidableEq

/-- Values produced by the YAML/TOML loaders, as observed by the Python code.
(Floats are not modelled; no claim depends on them.) -/
inductive Yaml where
  | nil
  | bool (b : Bool)
  | int (n : Int)
  | str (s : String)
  | list (items : List Yaml)
  | dict (entries : List (String × Yaml))

mutual
/-- Structural equality test mirroring Python `==` on loaded YAML values. -/
def yamlBEq : Yaml → Yaml → Bool
  | .nil, .nil => true
  | .bool a, .bool b => a == b
  | .int a, .int b => a == b
  | .str a, .str b => a == b
  | .list a, .list b => yamlListBEq a b
  | .dict a, .dict b => yamlDictBEq a b
  | _, _ => false
def yamlListBEq : List Yaml → List Yaml → Bool
  | [], [] => true
  | a :: as, b :: bs => yamlBEq a b && yamlListBEq as bs
  | _, _ => false
def yamlDictBEq : List (String × Yaml) → List (String × Yaml) → Bool
  | [], [] => true
  | (k1, v1) :: as, (k2, v2) :: bs => k1 == k2 && yamlBEq v1 v2 && yamlDictBEq as bs
  | _, _ => false
end

/-- Python truthiness of a loaded YAML value. -/
def pyTruthy : Yaml → Bool
  | .nil => false
  | .bool b => b
  | .int n => n != 0
  | .str s => s != ""
  | .list l => !l.isEmpty
  | .dict d => !d.isEmpty

/-! ### Character and string helpers (Python semantics, ASCII fragment) -/

/-- Whitespace characters stripped by Python's `str.strip()`. -/
def isPyWs (c : Char) : Bool :=
  c = ' ' || c = '\t' || c = '\n' || c = '\r' || c.val = 11 || c.val = 12

/-- `str.strip()` on a character list. -/
def stripL (l : List Char) : List Char :=
  ((l.dropWhile isPyWs).reverse.dropWhile isPyWs).reverse

def stripStr (s : String) : String := String.mk (stripL s.data)

def lowerStr (s : String) : String := String.mk (s.data.map Char.toLower)

def upperStr (s : String) : String := String.mk (s.data.map Char.toUpper)

/-- `beginsWith pre l` is true when `pre` is an initial segment of `l`
(Python `str.startswith`). -/
def beginsWith : List Char → List Char → Bool
  | [], _ => true
  | _ :: _, [] => false
  | p :: ps, c :: cs => p == c && beginsWith ps cs

def strBegins (pre s : String) : Bool := beginsWith pre.data s.data

/-- Python `str.endswith` on character lists. -/
def endsWithL (suf l : List Char) : Bool := beginsWith suf.reverse l.reverse

/-- Python `needle in haystack` substring test. -/
def containsSub (needle : List Char) : List Char → Bool
  | [] => needle.isEmpty
  | c :: cs => beginsWith needle (c :: cs) || containsSub needle cs

/-- Decimal digit character for `k = n % 10`. -/
def digitChar (k : Nat) : Char :=
  match k with
  | 0 => '0' | 1 => '1' | 2 => '2' | 3 => '3' | 4 => '4'
  | 5 => '5' | 6 => '6' | 7 => '7' | 8 => '8' | _ => '9'

/-- Decimal digits of `n`, most significant first (fuel-driven, total). -/
def natDigitsAux : Nat → Nat → List Char → List Char
  | 0, _, acc => acc
  | fuel + 1, n, acc =>
    if n < 10 then digitChar n :: acc
    else natDigitsAux fuel (n / 10) (digitChar (n % 10) :: acc)

/-- Decimal representation of a natural number (Python `str(n)` for `n ≥ 0`). -/
def natRepr (n : Nat) : String := String.mk (natDigitsAux (n + 1) n [])

/-- Decimal representation of an integer (Python `str(i)`). -/
def intRepr (i : Int) : String :=
  if i < 0 then "-" ++ natRepr i.natAbs else natRepr i.toNat

/-- Numeric value of a digit run. -/
def digitsVal (l : List Char) : Nat := l.foldl (fun a c => a * 10 + (c.toNat - 48)) 0

/-- Parse a nonempty all-digit run. -/
def parseIntDigits (l : List Char) : Option Nat :=
  if l.isEmpty then none
  else if l.all Char.isDigit then some (digitsVal l) else none

/-- Python `int(s)` on a string: strips whitespace, optional sign, digits.
(Underscore digit separators are outside the model.) -/
def pyIntOfStr (s : String) : Except PyErr Int :=
  let t := stripL s.data
  match t with
  | '-' :: rest =>
    match parseIntDigits rest with
    | some n => .ok (-(n : Int))
    | none => .error .valueError
  | '+' :: rest =>
    match parseIntDigits rest with
    | some n => .ok (n : Int)
    | none => .error .valueError
  | _ =>
    match parseIntDigits t with
    | some n => .ok (n : Int)
    | none => .error .valueError

/-- Python `int(x)` on a loaded YAML value. -/
def pyInt : Yaml → Except PyErr Int
  | .bool b => .ok (if b then 1 else 0)
  | .int n => .ok n
  | .str s => pyIntOfStr s
  | _ => .error .typeError

/-- `str(x)` for a loaded YAML value.  Container reprs are placeholders:
only the `date` field ever passes through `str`, and no claim reads it. -/
def pyStr : Yaml → String
  | .nil => "None"
  | .bool true => "True"
  | .bool false => "False"
  | .int n => intRepr n
  | .str s => s
  | .list _ => "<list>"
  | .dict _ => "<dict>"

/-- First binding of `k` in an association list (Python dict lookup;
dicts built by the loader have distinct keys). -/
def dictLookup : List (String × Yaml) → String → Option Yaml
  | [], _ => none
  | (k', v) :: rest, k => if k' = k then some v else dictLookup rest k

/-- Python `k in x` for a loaded YAML value. -/
def pyContains (k : String) : Yaml → Except PyErr Bool
  | .dict d => .ok (dictLookup d k).isSome
  | .list l => .ok (l.any fun y => yamlBEq y (.str k))
  | .str s => .ok (containsSub k.data s.data)
  | _ => .error .typeError

/-- Python `x[k]` for a string key. -/
def pyGetItem : Yaml → String → Except PyErr Yaml
  | .dict d, k =>
    match dictLookup d k with
    | some v => .ok v
    | none => .error .keyError
  | _, _ => .error .typeError

/-- Python `x.get(k, default)`: only dicts have `.get`. -/
def pyGetDefault : Yaml → String → Yaml → Except PyErr Yaml
  | .dict d, k, dflt => .ok ((dictLookup d k).getD dflt)
  | _, _, _ => .error .attributeError

/-- Python iteration over a loaded YAML value. -/
def pyIterate : Yaml → Except PyErr (List Yaml)
  | .list l => .ok l
  | .str s => .ok (s.data.map fun c => .str (String.mk [c]))
  | .dict d => .ok (d.map fun e => .str e.1)
  | _ => .error .typeError

/-- Python `x[0]` (used on a value already known to be iterable and nonempty). -/
def pyIndexZero : Yaml → Except PyErr Yaml
  | .list (a :: _) => .ok a
  | .str s =>
    match s.data with
    | c :: _ => .ok (.str (String.mk [c]))
    | [] => .error .typeError
  | _ => .error .typeError

/-! ### Paths and the file system model -/

/-- A filesystem path as a list of components. -/
abbrev FPath := List String

/-- The observable file system: a finite listing of files.  Each entry maps a
path to the line list `content.split('\n')` of its UTF-8 text.  A path absent
from the listing (or present only as a directory, i.e. as a proper prefix of
an entry) is unreadable: `read_text` raises there, which the model reports as
`none`. -/
structure FS where
  files : List (FPath × List String)

/-- `read_text().split('\n')`, with `none` for any read failure. -/
def fsRead (fs : FS) (p : FPath) : Option (List String) :=
  (fs.files.find? fun e => e.1 == p).map (·.2)

/-- `leadsTo p q`: `p` is an initial segment of `q`. -/
def leadsTo : FPath → FPath → Bool
  | [], _ => true
  | _ :: _, [] => false
  | a :: as, b :: bs => a == b && leadsTo as bs

/-- `Path.exists()`: true for files and for directories containing files. -/
def pathExists (fs : FS) (p : FPath) : Bool :=
  fs.files.any fun e => leadsTo p e.1

/-- Final path component (`Path.name`). -/
def lastName (p : FPath) : String := p.getLastD ""

/-- `Path.parent`. -/
def parentPath (p : FPath) : FPath := p.dropLast

/-- Split a character list at `'/'` (accumulator holds the current segment
reversed). -/
def splitSlashAux : List Char → List Char → List String
  | [], cur => [String.mk cur.reverse]
  | c :: cs, cur =>
    if c = '/' then String.mk cur.reverse :: splitSlashAux cs []
    else splitSlashAux cs (c :: cur)

/-- Components of a relative path string. -/
def splitSlash (rel : String) : List String := splitSlashAux rel.data []

/-- `base / rel` for a relative path string. -/
def joinRel (base : FPath) (rel : String) : FPath := base ++ splitSlash rel

/-- Split the reverse of a name at its first `'.'`:
`revDotSplit (a ++ '.' :: b) = some (a, b)` when `a` is dot-free. -/
def revDotSplit : List Char → Option (List Char × List Char)
  | [] => none
  | c :: cs =>
    if c = '.' then some ([], cs)
    else
      match revDotSplit cs with
      | some (a, b) => some (c :: a, b)
      | none => none

/-- `Path.stem` semantics on the final component: the name up to its last
`'.'`, provided that dot is neither the first nor the last character. -/
def stemOfL (name : List Char) : List Char :=
  match revDotSplit name.reverse with
  | some (aft, bef) => if bef.isEmpty || aft.isEmpty then name else bef.reverse
  | none => name

/-- `Path.suffix` semantics on the final component. -/
def suffixOfL (name : List Char) : List Char :=
  match revDotSplit name.reverse with
  | some (aft, bef) => if bef.isEmpty || aft.isEmpty then [] else '.' :: aft.reverse
  | none => []

def stemOf (s : String) : String := String.mk (stemOfL s.data)

def suffixOf (s : String) : String := String.mk (suffixOfL s.data)

/-- `Path.with_suffix('.md')` applied to the final component of `p`. -/
def withSuffixMdPath (p : FPath) : FPath :=
  parentPath p ++ [stemOf (lastName p) ++ ".md"]

/-! ### Configuration constants (`config.py`) -/

/-- `BookReaderConfig.INTRO_FILES`, in priority order. -/
def introFilesList : List String :=
  ["README.md", "readme.md", "index.md", "INDEX.md",
   "introduction.md", "INTRODUCTION.md", "00-introduction.md", "00-intro.md"]

/-- `BookReaderConfig.SKIP_FILES`. -/
def skipFilesList : List String :=
  ["CONTRIBUTING.md", "CHANGELOG.md", "LICENSE.md", "CODE_OF_CONDUCT.md"]

/-- Intro filenames recognised by the SUMMARY.md parser. -/
def summaryIntroNames : List String := ["readme.md", "index.md", "introduction.md"]

/-- Intro filenames recognised by the Leanpub parser. -/
def leanpubIntroNames : List String := ["introduction.md", "preface.md", "foreword.md"]

/-! ### Data model (`Chapter`, `BookStructure`) -/

/-- `Chapter` dataclass.  `title`, `is_draft`, `author` and `metadata` hold raw
loaded YAML values, since the Python code assigns frontmatter values to them
unconverted; `date` is always passed through `str`, hence a `String`. -/
structure Chapter where
  number : Int
  title : Yaml
  file_path : FPath
  is_intro : Bool := false
  is_draft : Yaml := .bool false
  author : Yaml := .nil
  date : Option String := none
  metadata : Yaml := .dict []

/-- `BookStructure` dataclass. -/
structure BookStructure where
  format_type : String
  title : Yaml := .nil
  author : Yaml := .nil
  chapters : List Chapter := []
  root_path : FPath := []

/-! ### The YAML mini-loader -/

/-- Null words of the YAML 1.1 resolver (plus the tilde). -/
def scalarNullWords : List String := ["~", "null", "Null", "NULL"]

/-- True words of the YAML 1.1 resolver. -/
def scalarTrueWords : List String :=
  ["true", "True", "TRUE", "yes", "Yes", "YES", "on", "On", "ON"]

/-- False words of the YAML 1.1 resolver. -/
def scalarFalseWords : List String :=
  ["false", "False", "FALSE", "no", "No", "NO", "off", "Off", "OFF"]

/-- All reserved scalar words of the YAML resolver. -/
def scalarWords : List String := scalarNullWords ++ scalarTrueWords ++ scalarFalseWords

/-- Scalar resolution of PyYAML's SafeLoader on the scalars of interest:
null/bool words, optionally signed integers, quoted strings, plain strings. -/
def parseScalar (s : String) : Yaml :=
  let t := stripL s.data
  let w := String.mk t
  if t.isEmpty then .nil
  else if scalarNullWords.contains w then .nil
  else if scalarTrueWords.contains w then .bool true
  else if scalarFalseWords.contains w then .bool false
  else if t.headD ' ' = '-' && (parseIntDigits (t.drop 1)).isSome then
    .int (-(digitsVal (t.drop 1) : Int))
  else if (parseIntDigits t).isSome then .int (digitsVal t)
  else if t.headD ' ' = '"' && t.getLastD ' ' = '"' && 2 ≤ t.length then
    .str (String.mk (t.drop 1).dropLast)
  else if (t.headD ' ').val = 39 && (t.getLastD ' ').val = 39 && 2 ≤ t.length then
    .str (String.mk (t.drop 1).dropLast)
  else .str w

/-- Split `key: value` (or `key:` at end of line).  The key is the dot-free
run before the first `':'`; a value must be separated by a space. -/
def splitKeyVal (l : List Char) : Option (String × String) :=
  let key := l.takeWhile (· ≠ ':')
  match l.dropWhile (· ≠ ':') with
  | ':' :: rest =>
    if key.isEmpty then none
    else if rest.isEmpty then some (String.mk key, "")
    else if rest.headD ' ' = ' ' then some (String.mk key, String.mk (stripL rest))
    else none
  | _ => none

/-- One mapping line: no indentation, `key: scalar`. -/
def mapLine (l : String) : Option (String × Yaml) :=
  if (l.data.headD 'x') = ' ' || (l.data.headD 'x') = '\t' then none
  else
    match splitKeyVal l.data with
    | some (k, v) => some (stripStr k, parseScalar v)
    | none => none

/-- `yaml.safe_load` on a line list: `none` models a parse error (exception),
`some .nil` a document that loads as `None`.  Supported shapes: all-blank
documents, a single scalar line, and flat `key: value` mappings.  Anything
else (nesting, flow collections, ...) is reported as a parse error. -/
def miniYamlE (lines : List String) : Option Yaml :=
  let sig := lines.filter fun l => !(stripL l.data).isEmpty
  match sig with
  | [] => some .nil
  | [l] =>
    match mapLine l with
    | some kv => some (.dict [kv])
    | none => if l.data.contains ':' then none else some (parseScalar l)
  | ls =>
    match ls.mapM mapLine with
    | some kvs => some (.dict kvs)
    | none => none

/-! ### Frontmatter extraction (`_parse_frontmatter`) -/

/-- The closing frontmatter delimiter of `re.search(r'\n---\s*\n', ...)`:
a line that is `---` followed only by whitespace. -/
def isCloseDashes (s : String) : Bool :=
  beginsWith ['-', '-', '-'] s.data && (s.data.drop 3).all isPyWs

/-- Index (counting in the full line list) of the first closing delimiter
line strictly after line 0.  The final line cannot close the block: the
regex requires a newline after the dashes, and the split's last element is
not followed by one. -/
def findCloseAux : List String → Nat → Option Nat
  | [], _ => none
  | [_], _ => none
  | l :: rest, i => if isCloseDashes l then some i else findCloseAux rest (i + 1)

/-- `_parse_frontmatter` on the line list of a document.  `none` covers every
path on which the Python function returns a falsy-as-`None` result for its
callers: no leading `---`, no closing delimiter, a YAML parse error, or a
block that loads as `None`. -/
def parseFrontmatter (lines : List String) : Option Yaml :=
  match lines with
  | [] => none
  | l0 :: rest =>
    if beginsWith ['-', '-', '-'] l0.data then
      match findCloseAux rest 1 with
      | none => none
      | some i =>
        let fmLines := String.mk (l0.data.drop 3) :: rest.take (i - 1)
        match miniYamlE fmLines with
        | none => none
        | some .nil => none
        | some v => some v
    else none

/-! ### Frontmatter enrichment (`_enrich_with_frontmatter`) -/

/-- The field updates `_enrich_with_frontmatter` extracts from a truthy
frontmatter value, computed in source order; any uncaught Python exception
on the way is reported.  The `chapter` field's `int(...)` is wrapped in
`try: ... except (ValueError, TypeError)`, so its item access and
conversion failures are swallowed. -/
structure FmUpd where
  title : Option Yaml := none
  author : Option Yaml := none
  date : Option String := none
  draft : Option Yaml := none
  chapter : Option Int := none

def fmUpdates (fm : Yaml) : Except PyErr FmUpd := do
  let u : FmUpd := {}
  let hasT ← pyContains "title" fm
  let u ← if hasT then do
      let v ← pyGetItem fm "title"
      pure { u with title := some v }
    else pure u
  let hasA ← pyContains "author" fm
  let u ← if hasA then do
      let v ← pyGetItem fm "author"
      pure { u with author := some v }
    else pure u
  let hasD ← pyContains "date" fm
  let u ← if hasD then do
      let v ← pyGetItem fm "date"
      pure { u with date := some (pyStr v) }
    else pure u
  let hasDr ← pyContains "draft" fm
  let u ← if hasDr then do
      let v ← pyGetItem fm "draft"
      pure { u with draft := some v }
    else pure u
  let hasC ← pyContains "chapter" fm
  let u ← if hasC then
      match (pyGetItem fm "chapter").bind pyInt with
      | .ok n => pure { u with chapter := some n }
      | .error _ => pure u
    else pure u
  return u

/-- Apply the extracted updates; the full frontmatter value is stored as
`metadata` unconditionally. -/
def applyUpd (c : Chapter) (fm : Yaml) (u : FmUpd) : Chapter :=
  { c with
    title := u.title.getD c.title
    author := u.author.getD c.author
    date := match u.date with | some d => some d | none => c.date
    is_draft := u.draft.getD c.is_draft
    number := u.chapter.getD c.number
    metadata := fm }

/-- `_enrich_with_frontmatter`: read failures and absent/falsy frontmatter
leave the chapter untouched. -/
def enrichWithFrontmatter (fs : FS) (c : Chapter) : Except PyErr Chapter :=
  match fsRead fs c.file_path with
  | none => .ok c
  | some lines =>
    match parseFrontmatter lines with
    | none => .ok c
    | some fm =>
      if pyTruthy fm then do
        let u ← fmUpdates fm
        return applyUpd c fm u
      else .ok c

/-! ### Title resolution (`_extract_title_from_file`, `_title_from_filename`) -/

/-- First line matching the `# ` heading tier, stripped. -/
def firstHeading : List String → Yaml
  | [] => .nil
  | l :: rest =>
    let t := stripL l.data
    if beginsWith ['#', ' '] t then .str (String.mk (stripL (t.drop 2)))
    else firstHeading rest

/-- `_extract_title_from_file`: `.ok .nil` models a `None` return (including
read failures); the frontmatter tier, when a `title` key is found, returns
its raw value and skips the heading tier. -/
def extractTitleFromFile (fs : FS) (p : FPath) : Except PyErr Yaml :=
  match fsRead fs p with
  | none => .ok .nil
  | some lines =>
    match lines with
    | [] => .ok (firstHeading lines)
    | l0 :: _ =>
      if beginsWith ['-', '-', '-'] l0.data then
        match parseFrontmatter lines with
        | some fm =>
          if pyTruthy fm then do
            let hasT ← pyContains "title" fm
            if hasT then pyGetItem fm "title"
            else return firstHeading lines
          else .ok (firstHeading lines)
        | none => .ok (firstHeading lines)
      else .ok (firstHeading lines)

/-- `str.title()`: uppercase every letter not preceded by a letter,
lowercase the rest. -/
def pyTitleL : List Char → Bool → List Char
  | [], _ => []
  | c :: cs, prevAlpha =>
    (if c.isAlpha then (if prevAlpha then c.toLower else c.toUpper) else c) ::
      pyTitleL cs c.isAlpha

def pyTitle (s : String) : String := String.mk (pyTitleL s.data false)

/-- Replace each run of `-`/`_` by a single space (`re.sub(r'[-_]+', ' ', ·)`). -/
def collapseSepsAux : List Char → Bool → List Char
  | [], _ => []
  | c :: cs, inRun =>
    if c = '-' || c = '_' then
      if inRun then collapseSepsAux cs true else ' ' :: collapseSepsAux cs true
    else c :: collapseSepsAux cs false

def collapseSeps (l : List Char) : List Char := collapseSepsAux l false

/-- The `re.sub(r'^\d+[-_]?', '', ·)` step of `_title_from_filename`: strip
one leading digit run plus at most one separator. -/
def stripLeadNum (l : List Char) : List Char :=
  if (l.headD ' ').isDigit then
    match l.dropWhile Char.isDigit with
    | '-' :: r => r
    | '_' :: r => r
    | r => r
  else l

/-- `_title_from_filename`: strip one leading digit run plus at most one
separator, replace separator runs by spaces, then title-case. -/
def titleFromFilename (stem : String) : String :=
  pyTitle (String.mk (collapseSeps (stripLeadNum stem.data)))

/-- The `_extract_title_from_file(p) or _title_from_filename(p.stem)`
pattern of `_auto_detect`. -/
def autoTitle (fs : FS) (p : FPath) : Except PyErr Yaml := do
  let t ← extractTitleFromFile fs p
  if pyTruthy t then return t
  else return .str (titleFromFilename (stemOf (lastName p)))

/-! ### The SUMMARY.md link pattern -/

/-- Attempt the tail of a match of `\[([^\]]+)\]\(([^)]+\.md)\)` after an
opening `'['`: a nonempty bracket-free title up to the first `']'`, an
immediate `'('`, and a paren-free target ending in `.md` (with at least one
character before the extension) up to the first `')'`. -/
def linkAt (l : List Char) : Option (List Char × List Char × List Char) :=
  let tit := l.takeWhile (· ≠ ']')
  match l.dropWhile (· ≠ ']') with
  | ']' :: '(' :: r2 =>
    if tit.isEmpty then none
    else
      let inner := r2.takeWhile (· ≠ ')')
      match r2.dropWhile (· ≠ ')') with
      | ')' :: after =>
        if endsWithL ['.', 'm', 'd'] inner && 4 ≤ inner.length then some (tit, inner, after)
        else none
      | _ => none
  | _ => none

/-- `re.search` of the link pattern in one line: leftmost match, with both
groups stripped as the parser does. -/
def findLinkAux : List Char → Option (String × String)
  | [] => none
  | '[' :: rest =>
    match linkAt rest with
    | some (t, r, _) => some (String.mk (stripL t), String.mk (stripL r))
    | none => findLinkAux rest
  | _ :: rest => findLinkAux rest

def findLink (line : String) : Option (String × String) := findLinkAux line.data

/-- Path resolution of the SUMMARY.md parser: the book root first, then the
manifest's own directory; `none` when neither candidate exists. -/
def resolveSummary (fs : FS) (root sdir : FPath) (rel : String) : Option FPath :=
  let p1 := joinRel root rel
  if pathExists fs p1 then some p1
  else
    let p2 := joinRel sdir rel
    if pathExists fs p2 then some p2 else none

/-- The per-line loop of `_parse_summary_md` before frontmatter enrichment:
link titles are taken from the link text, intro links (link path lowercased
equal to a fixed name) get number 0, the rest a running counter. -/
def summaryScan (fs : FS) (root sdir : FPath) : List String → Int → List Chapter
  | [], _ => []
  | line :: rest, num =>
    match findLink line with
    | none => summaryScan fs root sdir rest num
    | some (title, rel) =>
      match resolveSummary fs root sdir rel with
      | none => summaryScan fs root sdir rest num
      | some p =>
        if lowerStr rel ∈ summaryIntroNames then
          { number := 0, title := .str title, file_path := p, is_intro := true } ::
            summaryScan fs root sdir rest num
        else
          { number := num + 1, title := .str title, file_path := p } ::
            summaryScan fs root sdir rest (num + 1)

/-! ### Sort keys (`_extract_sort_key`) and candidate collection -/

/-- Match one of the `CHAPTER_FILE_PATTERNS` prefixes (case-insensitive):
the literal, an optional single `-`/`_` when the pattern allows one, then at
least one digit.  The name is already known to end in `.md` when this is
reached, which makes the trailing `(.*)\.md$` part of each pattern
automatic. -/
def matchLitNum (lit : List Char) (optSep : Bool) (lowname : List Char) : Option Nat :=
  if beginsWith lit lowname then
    let r := lowname.drop lit.length
    let r := if optSep && (r.headD 'x' = '-' || r.headD 'x' = '_') then r.drop 1 else r
    let ds := r.takeWhile Char.isDigit
    if ds.isEmpty then none else some (digitsVal ds)
  else none

/-- The number `_extract_sort_key` extracts, when any: a leading digit run
of the stem, else the chapter-naming patterns against the (lowercased) full
name. -/
def extractNumOf (p : FPath) : Option Nat :=
  let name := lastName p
  let stem := stemOf name
  if (stem.data.headD ' ').isDigit then
    some (digitsVal (stem.data.takeWhile Char.isDigit))
  else
    let ln := (lowerStr name).data
    let pat1 :=
      if (ln.headD ' ').isDigit then
        let ds := ln.takeWhile Char.isDigit
        match ln.drop ds.length with
        | '-' :: r => if endsWithL ['.', 'm', 'd'] r && 4 ≤ r.length then some (digitsVal ds) else none
        | '_' :: r => if endsWithL ['.', 'm', 'd'] r && 4 ≤ r.length then some (digitsVal ds) else none
        | _ => none
      else none
    match pat1 with
    | some n => some n
    | none =>
      if endsWithL ['.', 'm', 'd'] ln then
        match matchLitNum "chapter".data true ln with
        | some n => some n
        | none =>
          match matchLitNum "ch".data false ln with
          | some n => some n
          | none => matchLitNum "part".data true ln
      else none

/-- `_extract_sort_key`: the extracted number (with the `999999` sentinel
when there is none) paired with the original-case stem. -/
def extractSortKey (p : FPath) : Nat × String :=
  match extractNumOf p with
  | some n => (n, stemOf (lastName p))
  | none => (999999, stemOf (lastName p))

/-- Lexicographic `<` on character lists by code point (Python string `<`). -/
def charListLt : List Char → List Char → Bool
  | [], [] => false
  | [], _ :: _ => true
  | _ :: _, [] => false
  | a :: as, b :: bs =>
    if a.val < b.val then true
    else if b.val < a.val then false
    else charListLt as bs

def strLtB (a b : String) : Bool := charListLt a.data b.data

/-- The full sort key of `_auto_detect`'s `sort`:
`(self._extract_sort_key(p), p.name.lower())`. -/
def fullKey (p : FPath) : (Nat × String) × String := (extractSortKey p, lowerStr (lastName p))

/-- Strict lexicographic comparison of full keys. -/
def keyLtB (x y : (Nat × String) × String) : Bool :=
  if x.1.1 < y.1.1 then true
  else if y.1.1 < x.1.1 then false
  else if strLtB x.1.2 y.1.2 then true
  else if strLtB y.1.2 x.1.2 then false
  else strLtB x.2 y.2

def pathLtB (a b : FPath) : Bool := keyLtB (fullKey a) (fullKey b)

/-- Stable insertion into a sorted list: `x` goes before the first element
not strictly below it, hence after all earlier elements with an equal key. -/
def insertSorted (ltB : FPath → FPath → Bool) (x : FPath) : List FPath → List FPath
  | [] => [x]
  | y :: ys => if ltB y x then y :: insertSorted ltB x ys else x :: y :: ys

/-- Stable sort (the unique stable order also produced by Python's sort). -/
def stableSortBy (ltB : FPath → FPath → Bool) (l : List FPath) : List FPath :=
  l.foldr (insertSorted ltB) []

/-- Stable insertion for plain strings (for `sorted(...)` of glob results). -/
def insertStr (x : String) : List String → List String
  | [] => [x]
  | y :: ys => if strLtB y x then y :: insertStr x ys else x :: y :: ys

def sortStrs (l : List String) : List String := l.foldr insertStr []

/-- Names of the direct children of `root` (files and subdirectories), in
listing order, without repetition.  The order of `Path.glob` is
OS-dependent; the model fixes it to listing order, which is irrelevant
after the stable sort. -/
def childNames (fs : FS) (root : FPath) : List String :=
  (fs.files.filterMap fun e =>
    if root.length < e.1.length && leadsTo root e.1 then (e.1.drop root.length).head?
    else none).dedup

/-- Markdown entries directly inside a directory (`glob('*.md')`). -/
def mdNames (fs : FS) (dir : FPath) : List String :=
  (childNames fs dir).filter fun n => endsWithL ['.', 'm', 'd'] n.data

/-- `_pick_best_content_file`: fixed suffix priority, case-insensitive,
else the first listed file. -/
def pickBest (files : List FPath) : Option FPath :=
  match files with
  | [] => none
  | _ =>
    let tryPat (suf : String) : Option FPath :=
      files.find? fun f => endsWithL suf.data (lowerStr (lastName f)).data
    match tryPat "complete.md" with
    | some f => some f
    | none =>
      match tryPat "enhanced.md" with
      | some f => some f
      | none =>
        match tryPat "revised.md" with
        | some f => some f
        | none =>
          match tryPat "final.md" with
          | some f => some f
          | none => files.head?

/-- `_collect_markdown_files`. -/
def collectMarkdownFiles (fs : FS) (root : FPath) : List FPath :=
  let chapterDirs :=
    sortStrs ((childNames fs root).filter fun n => strBegins "chapter-" n)
  if !chapterDirs.isEmpty then
    chapterDirs.foldr (fun d acc =>
      let dpath := root ++ [d]
      let contentDir := dpath ++ ["content"]
      let contentFiles := (mdNames fs contentDir).map fun n => contentDir ++ [n]
      if pathExists fs contentDir && !contentFiles.isEmpty then
        match pickBest contentFiles with
        | some f => f :: acc
        | none => acc
      else
        let direct :=
          ((mdNames fs dpath).filter fun n => !strBegins "_" n).map fun n => dpath ++ [n]
        if !direct.isEmpty then
          match pickBest direct with
          | some f => f :: acc
          | none => acc
        else acc) []
  else
    ((mdNames fs root).filter fun n =>
      !strBegins "_" n &&
      upperStr n ≠ "SUMMARY.MD" && upperStr n ≠ "BOOK.TXT" &&
      n ∉ introFilesList &&
      n ∉ skipFilesList).map fun n => root ++ [n]

/-! ### The auto-detector (`_auto_detect`) -/

/-- First of `INTRO_FILES` that exists under the root. -/
def firstExistingIntro (fs : FS) (root : FPath) : Option FPath :=
  (introFilesList.find? fun n => pathExists fs (root ++ [n])).map fun n => root ++ [n]

/-- The intro step of `_auto_detect`: at most one chapter, enriched on
creation; the title falls back to the literal `'Introduction'`. -/
def autoIntroChapters (fs : FS) (root : FPath) : Except PyErr (List Chapter) :=
  match firstExistingIntro fs root with
  | none => .ok []
  | some p => do
    let t0 ← extractTitleFromFile fs p
    let t := if pyTruthy t0 then t0 else .str "Introduction"
    let c : Chapter := { number := 0, title := t, file_path := p, is_intro := true }
    let c ← enrichWithFrontmatter fs c
    return [c]

/-- The numbered-chapter loop of `_auto_detect`: files already claimed (the
intro) and `SKIP_FILES` names are skipped, all other files get a title and a
running number and are enriched in place. -/
def autoLoop (fs : FS) : List FPath → Nat → List Chapter → Except PyErr (List Chapter)
  | [], _, acc => .ok acc
  | p :: ps, num, acc =>
    if acc.any fun c => c.file_path == p then autoLoop fs ps num acc
    else if lastName p ∈ skipFilesList then autoLoop fs ps num acc
    else do
      let t ← autoTitle fs p
      let c : Chapter := { number := (num : Int) + 1, title := t, file_path := p }
      let c ← enrichWithFrontmatter fs c
      autoLoop fs ps (num + 1) (acc ++ [c])

/-- The candidate files of `_auto_detect`, in sorted order. -/
def sortedCandidates (fs : FS) (root : FPath) : List FPath :=
  stableSortBy pathLtB (collectMarkdownFiles fs root)

/-- `_auto_detect`. -/
def autoDetect (fs : FS) (root : FPath) : Except PyErr BookStructure := do
  let intro ← autoIntroChapters fs root
  let chs ← autoLoop fs (sortedCandidates fs root) 0 intro
  return { format_type := "auto", root_path := root, chapters := chs }

/-! ### The format parsers -/

/-- `_parse_summary_md`: a failed manifest read falls back to auto-detection;
otherwise the scanned chapters are enriched in order. -/
def parseSummaryMd (fs : FS) (root spath : FPath) : Except PyErr BookStructure :=
  match fsRead fs spath with
  | none => autoDetect fs root
  | some lines => do
    let chs ← (summaryScan fs root (parentPath spath) lines 0).mapM (enrichWithFrontmatter fs)
    return { format_type := "summary", root_path := root, chapters := chs }

/-- The per-line loop of `_parse_leanpub`. -/
def leanpubLoop (fs : FS) (root base : FPath) :
    List String → Nat → Except PyErr (List Chapter)
  | [], _ => .ok []
  | line :: rest, num =>
    let l := stripStr line
    if l = "" || strBegins "#" l then leanpubLoop fs root base rest num
    else if l = "frontmatter:" || l = "mainmatter:" || l = "backmatter:" then
      leanpubLoop fs root base rest num
    else
      let p0 := joinRel base l
      let p := if pathExists fs p0 then p0 else joinRel root l
      if pathExists fs p && suffixOf (lastName p) = ".md" then do
        let t0 ← extractTitleFromFile fs p
        let t := if pyTruthy t0 then t0 else .str (stemOf (lastName p))
        let isIn := lowerStr l ∈ leanpubIntroNames
        let c : Chapter :=
          if isIn then { number := 0, title := t, file_path := p, is_intro := true }
          else { number := (num : Int) + 1, title := t, file_path := p }
        let c ← enrichWithFrontmatter fs c
        let restChs ← leanpubLoop fs root base rest (if isIn then num else num + 1)
        return c :: restChs
      else leanpubLoop fs root base rest num

/-- `_parse_leanpub`. -/
def parseLeanpub (fs : FS) (root bpath : FPath) : Except PyErr BookStructure :=
  match fsRead fs bpath with
  | none => autoDetect fs root
  | some lines => do
    let base := if pathExists fs (root ++ ["manuscript"]) then root ++ ["manuscript"] else root
    let chs ← leanpubLoop fs root base lines 0
    return { format_type := "leanpub", root_path := root, chapters := chs }

/-- The per-entry loop of `_parse_bookdown`.  `item0` is `rmd_files[0]`. -/
def bookdownLoop (fs : FS) (root : FPath) (item0 : Yaml) :
    List Yaml → Nat → Except PyErr (List Chapter)
  | [], _ => .ok []
  | y :: rest, num => do
    let nameStr ← match y with
      | .str s => Except.ok s
      | _ => Except.error PyErr.typeError
    let p0 := joinRel root nameStr
    let pOpt :=
      if pathExists fs p0 then some p0
      else
        let mdp := withSuffixMdPath p0
        if pathExists fs mdp then some mdp else none
    match pOpt with
    | none => bookdownLoop fs root item0 rest num
    | some p => do
      let t0 ← extractTitleFromFile fs p
      let t := if pyTruthy t0 then t0 else .str (stemOf (lastName p))
      let isIn := containsSub "index".data (lowerStr nameStr).data || yamlBEq y item0
      let mkIntro := isIn && num == 0
      let c : Chapter :=
        if mkIntro then { number := 0, title := t, file_path := p, is_intro := true }
        else { number := (num : Int) + 1, title := t, file_path := p }
      let c ← enrichWithFrontmatter fs c
      let restChs ← bookdownLoop fs root item0 rest (if mkIntro then num else num + 1)
      return c :: restChs

/-- `_parse_bookdown`: read/YAML failures fall back to auto-detection; a
loaded config that is not a mapping raises (`.get` on it) past the parser. -/
def parseBookdown (fs : FS) (root bpath : FPath) : Except PyErr BookStructure :=
  match fsRead fs bpath with
  | none => autoDetect fs root
  | some lines =>
    match miniYamlE lines with
    | none => autoDetect fs root
    | some config => do
      let t2 ← pyGetDefault config "title" .nil
      let t1 ← pyGetDefault config "book_filename" t2
      let rmd ← pyGetDefault config "rmd_files" (.list [])
      let items ← pyIterate rmd
      let chs ←
        match items with
        | [] => pure []
        | _ => do
          let item0 ← pyIndexZero rmd
          bookdownLoop fs root item0 items 0
      return { format_type := "bookdown", title := t1, root_path := root, chapters := chs }

/-- `tomllib.loads` plus the `[book]` table reads of `_parse_mdbook_toml`,
collapsed: the Python code wraps the read, the parse and both lookups in one
`try/except Exception: pass`, so every failure yields `(None, None)`.  The
mini-parser understands a `[book]` table with `title = "..."` and
`authors = ["..."]` lines. -/
def miniToml (lines : List String) : Yaml × Yaml :=
  let rec inBook : List String → Bool → Yaml × Yaml → Yaml × Yaml
    | [], _, acc => acc
    | l :: rest, active, acc =>
      let t := stripStr l
      if t = "[book]" then inBook rest true acc
      else if strBegins "[" t then inBook rest false acc
      else if active then
        match splitKeyValEq t.data with
        | some ("title", v) => inBook rest active (parseTomlStr v, acc.2)
        | some ("authors", v) => inBook rest active (acc.1, parseTomlAuthors v)
        | _ => inBook rest active acc
      else inBook rest active acc
  inBook lines false (.nil, .nil)
where
  /-- Split `key = value` on the first `=`. -/
  splitKeyValEq (l : List Char) : Option (String × String) :=
    let key := l.takeWhile (· ≠ '=')
    match l.dropWhile (· ≠ '=') with
    | '=' :: rest => some (String.mk (stripL key), String.mk (stripL rest))
    | _ => none
  /-- A double-quoted TOML string; anything else is a failure (`nil`). -/
  parseTomlStr (v : String) : Yaml :=
    match v.data with
    | '"' :: rest =>
      if rest ≠ [] && rest.getLast?.getD ' ' = '"' then .str (String.mk rest.dropLast)
      else .nil
    | _ => .nil
  /-- `authors[0]` when the array is nonempty, else `nil`. -/
  parseTomlAuthors (v : String) : Yaml :=
    match v.data with
    | '[' :: rest =>
      if rest.getLast?.getD ' ' = ']' then
        let inner := stripL rest.dropLast
        match inner with
        | [] => .nil
        | _ => parseTomlStr (String.mk (inner.takeWhile (· ≠ ',')))
      else .nil
    | _ => .nil

/-- `_parse_mdbook_toml`: optional `[book]` metadata, then chapters from
`src/SUMMARY.md` via the summary parser, else full fallback to
auto-detection (which discards the metadata). -/
def parseMdbookToml (fs : FS) (root tpath : FPath) : Except PyErr BookStructure :=
  let meta :=
    match fsRead fs tpath with
    | none => (Yaml.nil, Yaml.nil)
    | some lines => miniToml lines
  if pathExists fs (root ++ ["src", "SUMMARY.md"]) then do
    let sub ← parseSummaryMd fs root (root ++ ["src", "SUMMARY.md"])
    return { format_type := "mdbook", title := meta.1, author := meta.2,
             root_path := root, chapters := sub.chapters }
  else autoDetect fs root

/-! ### The orchestrator (`detect_structure`) -/

/-- `detect_structure`: existence-based priority cascade, no backtracking. -/
def detectStructure (fs : FS) (root : FPath) : Except PyErr BookStructure :=
  if pathExists fs (root ++ ["SUMMARY.md"]) then
    parseSummaryMd fs root (root ++ ["SUMMARY.md"])
  else if pathExists fs (root ++ ["Book.txt"]) then
    parseLeanpub fs root (root ++ ["Book.txt"])
  else if pathExists fs (root ++ ["_bookdown.yml"]) then
    parseBookdown fs root (root ++ ["_bookdown.yml"])
  else if pathExists fs (root ++ ["book.toml"]) then
    parseMdbookToml fs root (root ++ ["book.toml"])
  else autoDetect fs root

/-! ### The writer's chapter creation (`book_writer.py`, `new_chapter`) -/

/-- `slugify`. -/
def slugify (text : String) : String :=
  let l := stripL (lowerStr text).data
  let kept := l.filter fun c => c.isAlphanum || c = '_' || isPyWs c || c = '-'
  let collapsed := slugCollapse kept false
  String.mk (((collapsed.dropWhile (· = '-')).reverse.dropWhile (· = '-')).reverse)
where
  /-- Replace each run of whitespace/`_`/`-` by a single `-`. -/
  slugCollapse : List Char → Bool → List Char
    | [], _ => []
    | c :: cs, inRun =>
      if isPyWs c || c = '_' || c = '-' then
        if inRun then slugCollapse cs true else '-' :: slugCollapse cs true
      else c :: slugCollapse cs false

/-- `f"{chapter_num:02d}"` for the nonnegative numbers the writer uses. -/
def fmt02 (n : Nat) : String := if n < 10 then "0" ++ natRepr n else natRepr n

/-- The chapter filename `f"{chapter_num:02d}-{slug}.md"`. -/
def newChapterFileName (title : String) (n : Nat) : String :=
  fmt02 n ++ "-" ++ slugify title ++ ".md"

/-- The single quote character (what `yaml.dump` wraps ISO dates in). -/
def sq : String := String.mk [Char.ofNat 39]

/-- Titles that `yaml.dump` single-quotes because the resolver would read
them back as a non-string: the null/bool words and all-digit integer
literals. -/
def quotedTitle (s : String) : Bool :=
  scalarWords.contains s || (!s.data.isEmpty && s.data.all Char.isDigit)

/-- The scalar `yaml.dump` emits for a chapter title: single-quoted when the
plain form would resolve to a non-string, else the plain text. -/
def dumpTitle (s : String) : String :=
  if quotedTitle s then sq ++ s ++ sq else s

/-- The file content written by `new_chapter` (non-draft case), as lines:
`---`, the `yaml.dump` of `{title, chapter, date}` (keys sorted
alphabetically by `yaml.dump`, the date string quoted because it resembles
a date, the title emitted through `dumpTitle`), `---`, and the body.
The final `""` entries reflect the trailing newlines of the written text. -/
def newChapterContent (title : String) (n : Nat) (dateStr : String) : List String :=
  ["---",
   "chapter: " ++ natRepr n,
   "date: " ++ sq ++ dateStr ++ sq,
   "title: " ++ dumpTitle title,
   "---",
   "",
   "# " ++ title,
   "",
   ""]

/-! ### Observers and claim-side definitions

The definitions from here to the first lemma are not translations of the
source: they state properties the spec claims (all links of a document,
ordering by lowercase filename, strict increase from 1), to be compared
with the behaviour of the source-translated functions above. -/

/-- Number of chapters flagged as introduction. -/
def countIntro (l : List Chapter) : Nat := (l.filter fun c => c.is_intro).length

/-- Numbers of the non-intro chapters, in list order. -/
def nonIntroNumbers (l : List Chapter) : List Int :=
  (l.filter fun c => !c.is_intro).map Chapter.number

/-- Strictly increasing integer list. -/
def strictIncr : List Int → Bool
  | [] => true
  | [_] => true
  | a :: b :: rest => a < b && strictIncr (b :: rest)

/-- The spec's "strictly increasing starting at 1". -/
def strictIncrFromOne (l : List Int) : Bool := (l.headD 1 == 1) && strictIncr l

/-- `[n, n+1, ..., n+k-1]`. -/
def seqIntsFrom (n : Int) (k : Nat) : List Int :=
  (List.range k).map fun i : Nat => n + (i : Int)

/-- All matches of the link pattern in one line, `re.findall` style
(non-overlapping, left to right); fuel-driven on the line length. -/
def lineLinksAux : Nat → List Char → List (String × String)
  | 0, _ => []
  | _, [] => []
  | fuel + 1, '[' :: rest =>
    match linkAt rest with
    | some (t, r, after) =>
      (String.mk (stripL t), String.mk (stripL r)) :: lineLinksAux fuel after
    | none => lineLinksAux fuel rest
  | fuel + 1, _ :: rest => lineLinksAux fuel rest

def lineLinks (line : String) : List (String × String) :=
  lineLinksAux (line.data.length + 1) line.data

/-- All links of a document, in appearance order (the claim's notion of
"the links" of a SUMMARY.md). -/
def linkOccurrences (lines : List String) : List (String × String) :=
  (lines.map lineLinks).flatten

/-- The claim-side candidate ordering "by lowercase filename". -/
def specSortByLowerName (l : List FPath) : List FPath :=
  stableSortBy (fun a b => charListLt (lowerStr (lastName a)).data (lowerStr (lastName b)).data) l

/-- The first link of a line together with its resolution, when resolvable. -/
def lineTarget (fs : FS) (root sdir : FPath) (line : String) : Option FPath :=
  match findLink line with
  | none => none
  | some (_, rel) => resolveSummary fs root sdir rel

/-- The (relative-path text of the) first link of a line, when resolvable. -/
def lineRel (fs : FS) (root sdir : FPath) (line : String) : Option String :=
  match findLink line with
  | none => none
  | some (_, rel) => if (resolveSummary fs root sdir rel).isSome then some rel else none

/-- The `(number, is_intro)` discipline of the provisional SUMMARY.md
numbering: every intro-named link gets `(0, true)`, the rest a running
counter. -/
def introNumbering (num : Int) : List String → List (Int × Bool)
  | [] => []
  | rel :: rest =>
    if lowerStr rel ∈ summaryIntroNames then (0, true) :: introNumbering num rest
    else (num + 1, false) :: introNumbering (num + 1) rest

/-- The number that frontmatter enrichment would force onto a chapter backed
by `p`, when any. -/
def fmChapterOverride (fs : FS) (p : FPath) : Option Int :=
  match fsRead fs p with
  | none => none
  | some lines =>
    match parseFrontmatter lines with
    | none => none
    | some fm =>
      if pyTruthy fm then
        match fmUpdates fm with
        | .ok u => u.chapter
        | .error _ => none
      else none

/-- Whether `_extract_sort_key` extracts a number (as opposed to falling to
the `999999` sentinel). -/
def hasNumKey (p : FPath) : Bool := (extractNumOf p).isSome

/-- The ten decimal digit characters. -/
def digitChars : List Char := ['0', '1', '2', '3', '4', '5', '6', '7', '8', '9']

/-- Titles that `yaml.dump` writes as plain scalars and the mini-loader reads
back verbatim: nonempty; the head is a letter, or a nonzero digit with a
letter somewhere after it (so no YAML 1.1 int/float/`0x`/`0b` literal
matches); only letters, digits, space, `-`, `_`, `,`, `!`, `?`; no trailing
space; and not a reserved scalar word. -/
def plainTitle (s : String) : Bool :=
  !s.data.isEmpty &&
  ((s.data.headD ' ').isAlpha ||
    ((s.data.headD ' ').isDigit && !((s.data.headD ' ') = '0') &&
      s.data.any Char.isAlpha)) &&
  s.data.all (fun c => c.isAlphanum || c = ' ' || c = '-' || c = '_' ||
    c = ',' || c = '!' || c = '?') &&
  !((s.data.getLastD ' ') = ' ') &&
  !(scalarWords.contains s)

/-- The titles whose writer round trip the model covers: plain-dumpable
titles plus the quoted reserved words and digit runs. -/
def goodTitle (s : String) : Bool := plainTitle s || quotedTitle s

/-- A directory as a file system: the named files directly under `root`. -/
def dirFS (root : FPath) (es : List (String × List String)) : FS :=
  ⟨es.map fun e => (root ++ [e.1], e.2)⟩

/-! ### Concrete fixtures (inputs for counterexamples and witnesses) -/

/-- A SUMMARY.md whose links name two intro files. -/
def fs1 : FS :=
  ⟨[(["b", "SUMMARY.md"], ["[A](readme.md)", "[B](index.md)"]),
    (["b", "readme.md"], ["x"]),
    (["b", "index.md"], ["y"])]⟩

/-- A SUMMARY.md line carrying two resolvable links. -/
def fs2 : FS :=
  ⟨[(["b", "SUMMARY.md"], ["[A](a.md) [B](b.md)"]),
    (["b", "a.md"], ["x"]),
    (["b", "b.md"], ["y"])]⟩

/-- A SUMMARY.md link to a README in a subdirectory. -/
def fs3 : FS :=
  ⟨[(["b", "SUMMARY.md"], ["[X](sub/README.md)"]),
    (["b", "sub", "README.md"], ["z"])]⟩

/-- A linked chapter file whose frontmatter block loads as the scalar `42`. -/
def fs4 : FS :=
  ⟨[(["b", "SUMMARY.md"], ["[A](a.md)"]),
    (["b", "a.md"], ["---", "42", "---", ""])]⟩

/-- A chapter whose frontmatter forces number 5 next to a plain chapter 2. -/
def fs5 : FS :=
  ⟨[(["b", "01-a.md"], ["---", "chapter: 5", "---", "", "# A", ""]),
    (["b", "02-b.md"], ["# B"])]⟩

/-- Two unnumbered chapter files whose stems differ only by case. -/
def fs6 : FS :=
  ⟨[(["b", "B.md"], ["x"]), (["b", "a.md"], ["y"])]⟩

/-- A digit-only filename with no frontmatter title and no heading. -/
def fs7 : FS :=
  ⟨[(["b", "123.md"], [""])]⟩

/-- A chapter whose frontmatter `chapter` value is not a number. -/
def fs8 : FS :=
  ⟨[(["b", "01-a.md"], ["---", "chapter: next", "---", "", "# A", ""])]⟩

/-- A `book.toml` with a title but no `src/SUMMARY.md`. -/
def fs10 : FS :=
  ⟨[(["b", "book.toml"], ["[book]", "title = \"T\""]),
    (["b", "01-a.md"], ["# A"])]⟩

/-- An empty-but-typed placeholder structure for witness statements. -/
def blankStructure : BookStructure := ⟨"", .nil, .nil, [], []⟩

/-! ## Helper lemmas -/

theorem except_bind_ok {α β : Type} (a : α) (f : α → Except PyErr β) :
    (Except.ok a >>= f) = f a := rfl

theorem except_bind_err {α β : Type} (e : PyErr) (f : α → Except PyErr β) :
    ((Except.error e : Except PyErr α) >>= f) = .error e := rfl

theorem except_pure {α : Type} (a : α) : (pure a : Except PyErr α) = .ok a := rfl

theorem applyUpd_is_intro (c : Chapter) (fm : Yaml) (u : FmUpd) :
    (applyUpd c fm u).is_intro = c.is_intro := rfl

theorem applyUpd_file_path (c : Chapter) (fm : Yaml) (u : FmUpd) :
    (applyUpd c fm u).file_path = c.file_path := rfl

/-- Frontmatter enrichment never changes the intro flag or the backing file. -/
theorem enrich_ok_proj {fs : FS} {c c' : Chapter}
    (h : enrichWithFrontmatter fs c = .ok c') :
    c'.is_intro = c.is_intro ∧ c'.file_path = c.file_path := by
  unfold enrichWithFrontmatter at h
  split at h
  next => cases h; exact ⟨rfl, rfl⟩
  next lines hl =>
    split at h
    next => cases h; exact ⟨rfl, rfl⟩
    next fm hfm =>
      by_cases ht : pyTruthy fm
      · rw [if_pos ht] at h
        cases hu : fmUpdates fm with
        | ok u =>
          rw [hu, except_bind_ok] at h
          cases h
          exact ⟨rfl, rfl⟩
        | error e => rw [hu, except_bind_err] at h; cases h
      · rw [if_neg ht] at h; cases h; exact ⟨rfl, rfl⟩

/-- When enrichment forces no chapter number, the number survives. -/
theorem enrich_ok_number {fs : FS} {c c' : Chapter}
    (h : enrichWithFrontmatter fs c = .ok c')
    (hov : fmChapterOverride fs c.file_path = none) :
    c'.number = c.number := by
  unfold enrichWithFrontmatter at h
  split at h
  next => cases h; rfl
  next lines hl =>
    split at h
    next => cases h; rfl
    next fm hfm =>
      by_cases ht : pyTruthy fm
      · rw [if_pos ht] at h
        cases hu : fmUpdates fm with
        | ok u =>
          rw [hu, except_bind_ok] at h
          cases h
          have hov' : u.chapter = none := by
            simp only [fmChapterOverride, hl, hfm, ht, if_true, hu] at hov
            exact hov
          show (applyUpd c fm u).number = c.number
          unfold applyUpd
          simp only [hov', Option.getD_none]
        | error e => rw [hu, except_bind_err] at h; cases h
      · rw [if_neg ht] at h; cases h; rfl

/-- Inversion for a successful `Except` bind. -/
theorem bind_ok_inv {α β : Type} {x : Except PyErr α} {f : α → Except PyErr β} {b : β}
    (h : (x >>= f) = .ok b) : ∃ a, x = .ok a ∧ f a = .ok b := by
  cases x with
  | ok a => rw [except_bind_ok] at h; exact ⟨a, rfl, h⟩
  | error e => rw [except_bind_err] at h; cases h

theorem seqIntsFrom_succ (n : Int) (k : Nat) :
    seqIntsFrom n (k + 1) = n :: seqIntsFrom (n + 1) k := by
  unfold seqIntsFrom
  rw [List.range_succ_eq_map, List.map_cons, List.map_map]
  congr 1
  · simp
  · refine List.map_congr_left fun i _ => ?_
    simp only [Function.comp_apply]
    push_cast
    ring

/-- Shape of a successful run of the auto-detector's numbered loop: it only
appends chapters, every appended chapter is non-intro, and (when no
frontmatter forces a number) the appended numbers count up from `num + 1`. -/
theorem autoLoop_ok_shape {fs : FS} {ps : List FPath} {num : Nat} {acc res : List Chapter}
    (h : autoLoop fs ps num acc = .ok res) :
    ∃ new, res = acc ++ new ∧ ∀ c ∈ new, c.is_intro = false := by
  induction ps generalizing num acc with
  | nil => unfold autoLoop at h; cases h; exact ⟨[], by simp⟩
  | cons p ps ih =>
    unfold autoLoop at h
    split at h
    next => exact ih h
    next =>
      split at h
      next => exact ih h
      next =>
        obtain ⟨t, ht, h⟩ := bind_ok_inv h
        obtain ⟨c', hc, h⟩ := bind_ok_inv h
        obtain ⟨new', hres, hni⟩ := ih h
        refine ⟨c' :: new', by simpa using hres, ?_⟩
        intro c hc2
        rcases List.mem_cons.mp hc2 with h1 | h1
        · subst h1
          exact (enrich_ok_proj hc).1
        · exact hni c h1

/-- As `autoLoop_ok_shape`, with the appended numbers made explicit. -/
theorem autoLoop_ok_numbers {fs : FS} {ps : List FPath} {num : Nat} {acc res : List Chapter}
    (h : autoLoop fs ps num acc = .ok res)
    (hov : ∀ p ∈ ps, fmChapterOverride fs p = none) :
    ∃ new, res = acc ++ new ∧ (∀ c ∈ new, c.is_intro = false) ∧
      new.map Chapter.number = seqIntsFrom ((num : Int) + 1) new.length := by
  induction ps generalizing num acc with
  | nil => unfold autoLoop at h; cases h; exact ⟨[], by simp, by simp, by simp [seqIntsFrom]⟩
  | cons p ps ih =>
    unfold autoLoop at h
    split at h
    next => exact ih h fun q hq => hov q (List.mem_cons_of_mem _ hq)
    next =>
      split at h
      next => exact ih h fun q hq => hov q (List.mem_cons_of_mem _ hq)
      next =>
        obtain ⟨t, ht, h⟩ := bind_ok_inv h
        obtain ⟨c', hc, h⟩ := bind_ok_inv h
        obtain ⟨new', hres, hni, hnums⟩ := ih h fun q hq => hov q (List.mem_cons_of_mem _ hq)
        refine ⟨c' :: new', by simpa using hres, ?_, ?_⟩
        · intro c hc2
          rcases List.mem_cons.mp hc2 with h1 | h1
          · subst h1
            exact (enrich_ok_proj hc).1
          · exact hni c h1
        · have hnum : c'.number = (num : Int) + 1 :=
            enrich_ok_number hc (hov p (List.mem_cons_self _ _))
          simp only [List.map_cons, hnum, hnums, List.length_cons, seqIntsFrom_succ]
          push_cast
          ring_nf

/-- A successful intro step yields at most one chapter, flagged as intro, and
none at all when no intro file exists. -/
theorem autoIntro_ok {fs : FS} {root : FPath} {intro : List Chapter}
    (h : autoIntroChapters fs root = .ok intro) :
    (∀ c ∈ intro, c.is_intro = true) ∧ intro.length ≤ 1 ∧
      (firstExistingIntro fs root = none → intro = []) := by
  unfold autoIntroChapters at h
  split at h
  next hf => cases h; exact ⟨by simp, by simp, fun _ => rfl⟩
  next p hf =>
    obtain ⟨t0, ht, h⟩ := bind_ok_inv h
    obtain ⟨c', hc, h⟩ := bind_ok_inv h
    cases h
    refine ⟨?_, by simp, fun hnone => by rw [hf] at hnone; cases hnone⟩
    intro c hc2
    rcases List.mem_cons.mp hc2 with h1 | h1
    · subst h1
      exact (enrich_ok_proj hc).1
    · cases h1

/-- Decomposition of a successful `_auto_detect` run. -/
theorem autoDetect_ok_inv {fs : FS} {root : FPath} {s : BookStructure}
    (h : autoDetect fs root = .ok s) :
    ∃ intro chs, autoIntroChapters fs root = .ok intro ∧
      autoLoop fs (sortedCandidates fs root) 0 intro = .ok chs ∧
      s = { format_type := "auto", root_path := root, chapters := chs } := by
  unfold autoDetect at h
  obtain ⟨intro, hi, h⟩ := bind_ok_inv h
  obtain ⟨chs, hl, h⟩ := bind_ok_inv h
  cases h
  exact ⟨intro, chs, hi, hl, rfl⟩

theorem strictIncr_seq (n : Int) (k : Nat) : strictIncr (seqIntsFrom n k) = true := by
  induction k generalizing n with
  | zero => rfl
  | succ k ih =>
    rw [seqIntsFrom_succ]
    cases k with
    | zero => rfl
    | succ k2 =>
      rw [seqIntsFrom_succ]
      have h2 : strictIncr ((n + 1) :: seqIntsFrom (n + 1 + 1) k2) = true := by
        rw [← seqIntsFrom_succ]
        exact ih (n + 1)
      unfold strictIncr
      rw [h2]
      simp

theorem strictIncrFromOne_seq (k : Nat) : strictIncrFromOne (seqIntsFrom 1 k) = true := by
  unfold strictIncrFromOne
  rw [strictIncr_seq]
  cases k with
  | zero => rfl
  | succ k2 => rw [seqIntsFrom_succ]; rfl

/-! ## The claims -/

/-- C1 (amended): the claim fails for the format parsers, which flag every
intro-named entry; it holds for the auto-detector: a successfully detected
auto structure has at most one intro chapter, and none when no file of
`INTRO_FILES` exists under the root. -/
theorem c1_amended (fs : FS) (root : FPath) (s : BookStructure)
    (h : autoDetect fs root = .ok s) :
    countIntro s.chapters ≤ 1 ∧
      ((∀ n ∈ introFilesList, pathExists fs (root ++ [n]) = false) →
        countIntro s.chapters = 0) := by
  obtain ⟨intro, chs, hi, hl, hs⟩ := autoDetect_ok_inv h
  obtain ⟨hint, hlen, hnone⟩ := autoIntro_ok hi
  obtain ⟨new, hres, hni⟩ := autoLoop_ok_shape hl
  subst hs
  subst hres
  have hnew : new.filter (fun c => c.is_intro) = [] :=
    List.filter_eq_nil_iff.mpr fun c hc => by simp [hni c hc]
  constructor
  · show countIntro (intro ++ new) ≤ 1
    unfold countIntro
    rw [List.filter_append, hnew, List.append_nil]
    calc (intro.filter fun c => c.is_intro).length
        ≤ intro.length := List.length_filter_le _ _
      _ ≤ 1 := hlen
  · intro hno
    have hfe : firstExistingIntro fs root = none := by
      unfold firstExistingIntro
      rw [Option.map_eq_none']
      rw [List.find?_eq_none]
      intro n hn
      simp [hno n hn]
    rw [hnone hfe]
    show countIntro ([] ++ new) = 0
    unfold countIntro
    rw [List.nil_append, hnew]
    rfl

/-- C1 witness: a directory with no intro-eligible file detects with zero
intro chapters. -/
theorem c1_amended_witness :
    countIntro ((autoDetect fs6 ["b"]).toOption.getD blankStructure).chapters = 0 :=
  (c1_amended fs6 ["b"] _ rfl).2 (by decide)

/-- C1 counterexample: a SUMMARY.md listing `readme.md` and `index.md` yields
a structure with two intro-flagged chapters, so "at most one chapter has
`is_intro = true`" is false for the manifest-link parser. -/
theorem c1_counterexample :
    ¬ ∀ s, detectStructure fs1 ["b"] = .ok s → countIntro s.chapters ≤ 1 := by
  intro h
  have h2 := h ((detectStructure fs1 ["b"]).toOption.getD blankStructure) rfl
  revert h2
  decide

/-- C5 (amended): the claim fails once frontmatter `chapter` overrides are in
play; in their absence the non-intro chapter numbers of an auto-detected
structure are exactly `1, 2, ...` in the detector's candidate order. -/
theorem c5_amended (fs : FS) (root : FPath) (s : BookStructure)
    (h : autoDetect fs root = .ok s)
    (hov : ∀ p ∈ sortedCandidates fs root, fmChapterOverride fs p = none) :
    nonIntroNumbers s.chapters = seqIntsFrom 1 (nonIntroNumbers s.chapters).length ∧
      strictIncrFromOne (nonIntroNumbers s.chapters) = true := by
  obtain ⟨intro, chs, hi, hl, hs⟩ := autoDetect_ok_inv h
  obtain ⟨hint, hlen, hnone⟩ := autoIntro_ok hi
  obtain ⟨new, hres, hni, hnums⟩ := autoLoop_ok_numbers hl hov
  subst hs
  subst hres
  have hsplit : (intro ++ new).filter (fun c => !c.is_intro) = new := by
    rw [List.filter_append]
    have h1 : intro.filter (fun c => !c.is_intro) = [] :=
      List.filter_eq_nil_iff.mpr fun c hc => by simp [hint c hc]
    have h2 : new.filter (fun c => !c.is_intro) = new :=
      List.filter_eq_self.mpr fun c hc => by simp [hni c hc]
    rw [h1, h2, List.nil_append]
  have hmain : nonIntroNumbers (intro ++ new) = seqIntsFrom 1 new.length := by
    unfold nonIntroNumbers
    rw [hsplit, hnums]
    norm_num
  have hlen2 : (seqIntsFrom 1 new.length).length = new.length := by
    unfold seqIntsFrom
    simp
  refine ⟨by rw [hmain, hlen2], ?_⟩
  rw [hmain]
  exact strictIncrFromOne_seq _

/-- C5 witness: two plain numbered files come out numbered 1, 2. -/
theorem c5_amended_witness :
    strictIncrFromOne
      (nonIntroNumbers ((autoDetect fs6 ["b"]).toOption.getD blankStructure).chapters) = true :=
  (c5_amended fs6 ["b"] _ rfl (by decide)).2

/-- C5 counterexample: a frontmatter `chapter: 5` in the first sorted file
makes the detected numbers `[5, 2]`, which is not strictly increasing
starting at 1. -/
theorem c5_counterexample :
    ¬ ∀ s, detectStructure fs5 ["b"] = .ok s →
      strictIncrFromOne (nonIntroNumbers s.chapters) = true := by
  intro h
  have h2 := h ((detectStructure fs5 ["b"]).toOption.getD blankStructure) rfl
  revert h2
  decide

/-- The backing files of the provisional SUMMARY.md chapters are exactly the
resolved first links of the lines, in line order. -/
theorem summaryScan_paths (fs : FS) (root sdir : FPath) :
    ∀ (lines : List String) (num : Int),
      (summaryScan fs root sdir lines num).map Chapter.file_path =
        lines.filterMap (lineTarget fs root sdir) := by
  intro lines
  induction lines with
  | nil => intro num; rfl
  | cons line rest ih =>
    intro num
    rw [List.filterMap_cons]
    cases hfl : findLink line with
    | none =>
      simp only [summaryScan, lineTarget, hfl]
      exact ih num
    | some tr =>
      obtain ⟨title, rel⟩ := tr
      cases hres : resolveSummary fs root sdir rel with
      | none =>
        simp only [summaryScan, lineTarget, hfl, hres]
        exact ih num
      | some p =>
        by_cases hin : lowerStr rel ∈ summaryIntroNames
        · simp only [summaryScan, lineTarget, hfl, hres, if_pos hin, List.map_cons]
          exact congrArg (List.cons p) (ih num)
        · simp only [summaryScan, lineTarget, hfl, hres, if_neg hin, List.map_cons]
          exact congrArg (List.cons p) (ih (num + 1))

/-- A successful chapterwise enrichment pass keeps every backing file. -/
theorem mapM_enrich_paths {fs : FS} :
    ∀ {l l' : List Chapter}, l.mapM (enrichWithFrontmatter fs) = .ok l' →
      l'.map Chapter.file_path = l.map Chapter.file_path := by
  intro l
  induction l with
  | nil =>
    intro l' h
    rw [List.mapM_nil] at h
    cases h
    rfl
  | cons c cs ih =>
    intro l' h
    rw [List.mapM_cons] at h
    obtain ⟨c', hc, h⟩ := bind_ok_inv h
    obtain ⟨cs', hcs, h⟩ := bind_ok_inv h
    cases h
    rw [List.map_cons, List.map_cons, (enrich_ok_proj hc).2, ih hcs]

/-- C2 (amended): each line of a readable SUMMARY.md contributes exactly one
chapter when its first link pattern match resolves (book root first, then the
manifest's directory) and zero chapters otherwise, in line order, with no
error; links after the first on a line are ignored, and frontmatter
enrichment of the produced chapters can still fail the parse (see C4). -/
theorem c2_amended (fs : FS) (root spath : FPath) (lines : List String) (s : BookStructure)
    (hread : fsRead fs spath = some lines)
    (h : parseSummaryMd fs root spath = .ok s) :
    s.chapters.map Chapter.file_path =
      lines.filterMap (lineTarget fs root (parentPath spath)) := by
  unfold parseSummaryMd at h
  rw [hread] at h
  simp only at h
  obtain ⟨chs, hmap, h⟩ := bind_ok_inv h
  cases h
  show chs.map Chapter.file_path = _
  rw [mapM_enrich_paths hmap]
  exact summaryScan_paths fs root (parentPath spath) lines 0

/-- C2 witness: both resolutions exercised on a concrete manifest. -/
theorem c2_amended_witness :
    ((parseSummaryMd fs2 ["b"] ["b", "SUMMARY.md"]).toOption.getD blankStructure).chapters.map
        Chapter.file_path =
      ["[A](a.md) [B](b.md)"].filterMap (lineTarget fs2 ["b"] (parentPath ["b", "SUMMARY.md"])) :=
  c2_amended fs2 ["b"] ["b", "SUMMARY.md"] _ _ rfl rfl

/-- C2 counterexample: a line holding two resolvable links produces one
chapter, not one per resolvable link. -/
theorem c2_counterexample :
    ¬ ∀ s, parseSummaryMd fs2 ["b"] ["b", "SUMMARY.md"] = .ok s →
      s.chapters.length =
        ((linkOccurrences ["[A](a.md) [B](b.md)"]).filter
          (fun tr => (resolveSummary fs2 ["b"] ["b"] tr.2).isSome)).length := by
  intro h
  have h2 := h ((parseSummaryMd fs2 ["b"] ["b", "SUMMARY.md"]).toOption.getD blankStructure) rfl
  revert h2
  decide

/-- C3 (amended): in the provisional SUMMARY.md pass, a link is classified as
introduction exactly when the link's own path text, lowercased, is one of
`readme.md`, `index.md`, `introduction.md` (a matching *filename* inside a
subdirectory does not count); every such link gets number 0 (not only the
first), and the other resolvable links get `1, 2, ...` in appearance order.
Frontmatter enrichment may still replace numbers afterwards (see C5/C8). -/
theorem c3_amended (fs : FS) (root sdir : FPath) (lines : List String) :
    (summaryScan fs root sdir lines 0).map (fun c => (c.number, c.is_intro)) =
      introNumbering 0 (lines.filterMap (lineRel fs root sdir)) := by
  suffices hgen : ∀ (ls : List String) (num : Int),
      (summaryScan fs root sdir ls num).map (fun c => (c.number, c.is_intro)) =
        introNumbering num (ls.filterMap (lineRel fs root sdir)) from hgen lines 0
  intro ls
  induction ls with
  | nil => intro num; rfl
  | cons line rest ih =>
    intro num
    rw [List.filterMap_cons]
    cases hfl : findLink line with
    | none =>
      simp only [summaryScan, lineRel, hfl]
      exact ih num
    | some tr =>
      obtain ⟨title, rel⟩ := tr
      cases hres : resolveSummary fs root sdir rel with
      | none =>
        simp only [summaryScan, lineRel, hfl, hres, Option.isSome_none, Bool.false_eq_true,
          if_false]
        exact ih num
      | some p =>
        by_cases hin : lowerStr rel ∈ summaryIntroNames
        · simp only [summaryScan, lineRel, hfl, hres, Option.isSome_some, if_true,
            introNumbering, if_pos hin, List.map_cons]
          exact congrArg (List.cons (0, true)) (ih num)
        · simp only [summaryScan, lineRel, hfl, hres, Option.isSome_some, if_true,
            introNumbering, if_neg hin, List.map_cons]
          exact congrArg (List.cons (num + 1, false)) (ih (num + 1))

/-- C3 counterexample: the link `[X](sub/README.md)` resolves to a file named
`README.md`, yet is not classified as an introduction: the comparison uses the
whole link path, not the resolved filename. -/
theorem c3_counterexample :
    ¬ ∀ s, parseSummaryMd fs3 ["b"] ["b", "SUMMARY.md"] = .ok s →
      ∀ c ∈ s.chapters,
        c.is_intro = summaryIntroNames.contains (lowerStr (lastName c.file_path)) := by
  intro h
  have h2 := h ((parseSummaryMd fs3 ["b"] ["b", "SUMMARY.md"]).toOption.getD blankStructure) rfl
  revert h2
  decide

/-- C4: evaluation at the failing input.  A linked chapter file whose
frontmatter block loads as the non-mapping scalar `42` makes the whole
detection raise `TypeError` (`'title' in 42` in `_enrich_with_frontmatter`),
instead of treating the frontmatter as absent metadata. -/
theorem c4_failing_eval : detectStructure fs4 ["b"] = .error .typeError := rfl

/-- C6 (amended): under the candidate comparator, a file whose extracted
number is below the `999999` sentinel strictly precedes every file with no
extractable number; ties are broken by the case-sensitive stem before the
lowercase filename, not by the lowercase filename alone. -/
theorem c6_amended (a b : FPath) (n : Nat)
    (ha : extractNumOf a = some n) (hn : n < 999999)
    (hb : hasNumKey b = false) :
    pathLtB a b = true ∧ pathLtB b a = false := by
  have hkb : extractSortKey b = (999999, stemOf (lastName b)) := by
    unfold hasNumKey at hb
    unfold extractSortKey
    cases hEb : extractNumOf b with
    | some m => rw [hEb] at hb; cases hb
    | none => rfl
  have hka : extractSortKey a = (n, stemOf (lastName a)) := by
    unfold extractSortKey
    rw [ha]
  unfold pathLtB fullKey keyLtB
  rw [hka, hkb]
  constructor
  · simp [hn]
  · have h1 : ¬ (999999 < n) := by omega
    simp [hn, h1]

/-- C6 witness: a numbered file sorts strictly before an unnumbered one. -/
theorem c6_amended_witness :
    pathLtB ["01-a.md"] ["zzz.md"] = true ∧ pathLtB ["zzz.md"] ["01-a.md"] = false :=
  c6_amended ["01-a.md"] ["zzz.md"] 1 rfl (by decide) rfl

/-- C6 counterexample: two sentinel files `B.md` and `a.md` are ordered
`B.md` before `a.md` (case-sensitive stem first), while ordering by
lowercase filename would put `a.md` first. -/
theorem c6_counterexample :
    sortedCandidates fs6 ["b"] = [["b", "B.md"], ["b", "a.md"]] ∧
      specSortByLowerName (collectMarkdownFiles fs6 ["b"]) = [["b", "a.md"], ["b", "B.md"]] ∧
      sortedCandidates fs6 ["b"] ≠ specSortByLowerName (collectMarkdownFiles fs6 ["b"]) :=
  ⟨rfl, rfl, by decide⟩

theorem mk_eq_empty_iff (l : List Char) : (String.mk l = "") ↔ l = [] :=
  ⟨fun h => congrArg String.data h, fun h => h ▸ rfl⟩

theorem pyTitleL_eq_nil_iff (l : List Char) (b : Bool) : pyTitleL l b = [] ↔ l = [] := by
  cases l <;> simp [pyTitleL]

theorem collapseSeps_eq_nil_iff (l : List Char) : collapseSeps l = [] ↔ l = [] := by
  unfold collapseSeps
  cases l with
  | nil => simp [collapseSepsAux]
  | cons c cs =>
    simp only [collapseSepsAux]
    split <;> simp

theorem titleFromFilename_empty_iff (stem : String) :
    (titleFromFilename stem = "") ↔ stripLeadNum stem.data = [] := by
  unfold titleFromFilename pyTitle
  rw [mk_eq_empty_iff]
  rw [show (String.mk (collapseSeps (stripLeadNum stem.data))).data
      = collapseSeps (stripLeadNum stem.data) from rfl]
  rw [pyTitleL_eq_nil_iff, collapseSeps_eq_nil_iff]

/-- The heading/filename tiers are reached whenever the frontmatter tier
finds no `title` key. -/
theorem extract_no_title_tier {fs : FS} {p : FPath} {lines : List String}
    (hread : fsRead fs p = some lines)
    (hnt : parseFrontmatter lines = none ∨
      ∃ d, parseFrontmatter lines = some (.dict d) ∧ dictLookup d "title" = none) :
    extractTitleFromFile fs p = .ok (firstHeading lines) := by
  unfold extractTitleFromFile
  rw [hread]
  simp only
  cases lines with
  | nil => rfl
  | cons l0 rest =>
    by_cases hb : beginsWith ['-', '-', '-'] l0.data
    · rcases hnt with hn | ⟨d, hd, hl⟩
      · simp [hb, hn]
      · by_cases hT : pyTruthy (.dict d)
        · simp [hb, hd, hT, pyContains, hl, except_bind_ok, except_pure]
        · simp [hb, hd, hT]
    · simp [hb]

/-- The frontmatter `title` value is returned verbatim when present. -/
theorem extract_title_tier {fs : FS} {p : FPath} {lines : List String}
    {d : List (String × Yaml)} {v : Yaml}
    (hread : fsRead fs p = some lines)
    (hfm : parseFrontmatter lines = some (.dict d))
    (hv : dictLookup d "title" = some v) :
    extractTitleFromFile fs p = .ok v := by
  unfold extractTitleFromFile
  rw [hread]
  simp only
  cases lines with
  | nil => rw [parseFrontmatter] at hfm; cases hfm
  | cons l0 rest =>
    have hb : beginsWith ['-', '-', '-'] l0.data = true := by
      by_contra hnb
      rw [parseFrontmatter, if_neg hnb] at hfm
      cases hfm
    have hd : d ≠ [] := by
      intro he
      subst he
      rw [dictLookup] at hv
      cases hv
    have hT : pyTruthy (.dict d) = true := by
      match d, hd with
      | _ :: _, _ => rfl
    simp [hb, hfm, hT, pyContains, hv, pyGetItem, except_bind_ok]

/-- C7 (amended): the resolved auto-detection title follows the priority
frontmatter `title` (when truthy), then the first `# ` heading (when
nonempty), then the filename-derived title; read failures fall through to
the filename tier.  The filename-derived title, however, is empty exactly
when the stem is a digit run followed by at most one separator, so the
resolved title can be the empty string (see the counterexample). -/
theorem c7_amended (fs : FS) (p : FPath) :
    (fsRead fs p = none →
      autoTitle fs p = .ok (.str (titleFromFilename (stemOf (lastName p))))) ∧
    (∀ lines d v, fsRead fs p = some lines →
      parseFrontmatter lines = some (.dict d) → dictLookup d "title" = some v →
      pyTruthy v = true → autoTitle fs p = .ok v) ∧
    (∀ lines h, fsRead fs p = some lines →
      (parseFrontmatter lines = none ∨
        ∃ d, parseFrontmatter lines = some (.dict d) ∧ dictLookup d "title" = none) →
      firstHeading lines = .str h → h ≠ "" →
      autoTitle fs p = .ok (.str h)) ∧
    (∀ lines, fsRead fs p = some lines →
      (parseFrontmatter lines = none ∨
        ∃ d, parseFrontmatter lines = some (.dict d) ∧ dictLookup d "title" = none) →
      firstHeading lines = .nil →
      autoTitle fs p = .ok (.str (titleFromFilename (stemOf (lastName p))))) ∧
    (∀ stem : String, (titleFromFilename stem = "") ↔ stripLeadNum stem.data = []) := by
  refine ⟨?_, ?_, ?_, ?_, titleFromFilename_empty_iff⟩
  · intro hread
    unfold autoTitle extractTitleFromFile
    rw [hread]
    rfl
  · intro lines d v hread hfm hv htr
    unfold autoTitle
    rw [extract_title_tier hread hfm hv, except_bind_ok]
    simp [htr, except_pure]
  · intro lines h hread hnt hh hne
    unfold autoTitle
    rw [extract_no_title_tier hread hnt, except_bind_ok, hh]
    simp [pyTruthy, hne, except_pure]
  · intro lines hread hnt hh
    unfold autoTitle
    rw [extract_no_title_tier hread hnt, except_bind_ok, hh]
    rfl

/-- C7 witness: the frontmatter tier and the empty-filename-title case at
concrete inputs. -/
theorem c7_amended_witness :
    autoTitle fs5 ["b", "01-a.md"] = .ok (.str "A") ∧ titleFromFilename "123" = "" := by
  constructor
  · exact (c7_amended fs5 ["b", "01-a.md"]).2.2.1 _ "A" rfl (Or.inr ⟨_, rfl, rfl⟩) rfl
      (by decide)
  · exact (titleFromFilename_empty_iff "123").mpr (by decide)

/-- C7 counterexample: the file `123.md` with empty content resolves to the
empty title, refuting "the resolved title is never empty". -/
theorem c7_counterexample :
    ¬ ∀ s, detectStructure fs7 ["b"] = .ok s → ∀ c ∈ s.chapters, c.title ≠ .str "" := by
  intro h
  have h2 := h ((detectStructure fs7 ["b"]).toOption.getD blankStructure) rfl
  exact h2
    (((detectStructure fs7 ["b"]).toOption.getD blankStructure).chapters.headD
      ⟨0, .nil, [], false, .bool false, .nil, none, .dict []⟩)
    (List.mem_cons_self _ _) rfl

/-- On a mapping frontmatter, the update extraction never raises, and reads
exactly the five known keys. -/
theorem fmUpdates_dict (d : List (String × Yaml)) :
    fmUpdates (.dict d) = .ok
      { title := dictLookup d "title"
        author := dictLookup d "author"
        date := (dictLookup d "date").map pyStr
        draft := dictLookup d "draft"
        chapter :=
          match dictLookup d "chapter" with
          | some v => (pyInt v).toOption
          | none => none } := by
  unfold fmUpdates
  cases h1 : dictLookup d "title" <;> cases h2 : dictLookup d "author" <;>
    cases h3 : dictLookup d "date" <;> cases h4 : dictLookup d "draft" <;>
      cases h5 : dictLookup d "chapter" <;>
        simp only [pyContains, pyGetItem, h1, h2, h3, h4, h5, Option.isSome_some,
          Option.isSome_none, except_bind_ok, if_true, if_false, Bool.false_eq_true,
          Option.map_some, Option.map_none, except_pure, Except.bind] <;>
        first
          | rfl
          | (rename_i v; cases h6 : pyInt v <;> simp [h6, Except.toOption, except_pure])

/-- C8 (confirmed): on a mapping frontmatter carrying a `chapter` key, the
enrichment replaces the provisional number exactly when Python `int(...)`
succeeds on the value, and keeps it unchanged when the conversion raises. -/
theorem c8_theorem (fs : FS) (c : Chapter) (lines : List String)
    (d : List (String × Yaml)) (v : Yaml)
    (hread : fsRead fs c.file_path = some lines)
    (hfm : parseFrontmatter lines = some (.dict d))
    (hch : dictLookup d "chapter" = some v) :
    ∃ c', enrichWithFrontmatter fs c = .ok c' ∧
      (∀ n, pyInt v = .ok n → c'.number = n) ∧
      (∀ e, pyInt v = .error e → c'.number = c.number) := by
  have hd : pyTruthy (.dict d) = true := by
    match d, hch with
    | (k, w) :: _, _ => rfl
  unfold enrichWithFrontmatter
  rw [hread]
  simp only
  rw [hfm]
  simp only [hd, if_true]
  rw [fmUpdates_dict, except_bind_ok, except_pure]
  refine ⟨_, rfl, ?_, ?_⟩
  · intro n hn
    show (applyUpd c _ _).number = n
    unfold applyUpd
    simp only [hch, hn, Except.toOption, Option.getD_some]
  · intro e he
    show (applyUpd c _ _).number = c.number
    unfold applyUpd
    simp only [hch, he, Except.toOption, Option.getD_none]

/-- C8 witness: `chapter: next` does not parse as an integer, so the
provisional number 1 survives enrichment. -/
theorem c8_witness :
    ∃ c', enrichWithFrontmatter fs8 { number := 1, title := .nil, file_path := ["b", "01-a.md"] }
        = .ok c' ∧ c'.number = 1 := by
  obtain ⟨c', hc, _, herr⟩ :=
    c8_theorem fs8 { number := 1, title := .nil, file_path := ["b", "01-a.md"] }
      ["---", "chapter: next", "---", "", "# A", ""]
      [("chapter", .str "next")] (.str "next") rfl rfl rfl
  exact ⟨c', hc, herr .valueError rfl⟩

theorem autoDetect_ok_meta {fs : FS} {root : FPath} {s : BookStructure}
    (h : autoDetect fs root = .ok s) :
    s.format_type = "auto" ∧ s.title = .nil ∧ s.author = .nil := by
  obtain ⟨intro, chs, hi, hl, hs⟩ := autoDetect_ok_inv h
  subst hs
  exact ⟨rfl, rfl, rfl⟩

/-- C10 (confirmed): with a `book.toml` present (whatever it holds, e.g. a
parsed book title) but no `src/SUMMARY.md`, `detect_structure` returns the
plain auto-detection result: format `auto` and no title or author — the
`book.toml` metadata is discarded. -/
theorem c10_theorem (fs : FS) (root : FPath) (lines : List String)
    (h1 : pathExists fs (root ++ ["SUMMARY.md"]) = false)
    (h2 : pathExists fs (root ++ ["Book.txt"]) = false)
    (h3 : pathExists fs (root ++ ["_bookdown.yml"]) = false)
    (h4 : pathExists fs (root ++ ["book.toml"]) = true)
    (h5 : pathExists fs (root ++ ["src", "SUMMARY.md"]) = false)
    (_hread : fsRead fs (root ++ ["book.toml"]) = some lines)
    (_hmeta : pyTruthy (miniToml lines).1 = true) :
    detectStructure fs root = autoDetect fs root ∧
      ∀ s, autoDetect fs root = .ok s →
        s.format_type = "auto" ∧ s.title = .nil ∧ s.author = .nil := by
  constructor
  · unfold detectStructure
    rw [h1, h2, h3, h4]
    simp only [Bool.false_eq_true, if_false, if_true]
    unfold parseMdbookToml
    rw [h5]
    simp
  · intro s hs
    exact autoDetect_ok_meta hs

/-! ### Character-class and decimal-representation lemmas -/

theorem char_cases_of_isPyWs {c : Char} (h : isPyWs c = true) :
    c = ' ' ∨ c = '\t' ∨ c = '\n' ∨ c = '\r' ∨ c = '\x0B' ∨ c = '\x0C' := by
  unfold isPyWs at h
  simp only [Bool.or_eq_true, decide_eq_true_eq] at h
  rcases h with ((((h | h) | h) | h) | h) | h
  · exact Or.inl h
  · exact Or.inr (Or.inl h)
  · exact Or.inr (Or.inr (Or.inl h))
  · exact Or.inr (Or.inr (Or.inr (Or.inl h)))
  · exact Or.inr (Or.inr (Or.inr (Or.inr (Or.inl (Char.ext (by rw [h]; rfl))))))
  · exact Or.inr (Or.inr (Or.inr (Or.inr (Or.inr (Char.ext (by rw [h]; rfl))))))

theorem isPyWs_false_of_isAlpha {c : Char} (h : c.isAlpha = true) : isPyWs c = false := by
  by_contra hw
  rw [Bool.not_eq_false] at hw
  rcases char_cases_of_isPyWs hw with h6 | h6 | h6 | h6 | h6 | h6 <;>
    (subst h6; exact absurd h (by decide))

theorem isPyWs_false_of_allowed {c : Char}
    (h : (c.isAlphanum || c = ' ' || c = '-' || c = '_' ||
      c = ',' || c = '!' || c = '?') = true) (hs : ¬ c = ' ') :
    isPyWs c = false := by
  by_contra hw
  rw [Bool.not_eq_false] at hw
  rcases char_cases_of_isPyWs hw with h6 | h6 | h6 | h6 | h6 | h6 <;>
    first
      | exact hs h6
      | (subst h6; exact absurd h (by decide))

theorem isPyWs_false_of_mem_digitChars {c : Char} (h : c ∈ digitChars) :
    isPyWs c = false := by
  fin_cases h <;> decide

theorem isDigit_of_mem_digitChars {c : Char} (h : c ∈ digitChars) : c.isDigit = true := by
  fin_cases h <;> decide

theorem toUpper_of_mem_digitChars {c : Char} (h : c ∈ digitChars) : c.toUpper = c := by
  fin_cases h <;> decide

theorem digitChar_mem_digitChars (k : Nat) : digitChar k ∈ digitChars := by
  unfold digitChar
  split <;> decide

theorem digitChar_toNat (k : Nat) (h : k < 10) : (digitChar k).toNat = 48 + k := by
  interval_cases k <;> decide

theorem digitChar_ne_zero (k : Nat) (h1 : 1 ≤ k) (h2 : k < 10) : digitChar k ≠ '0' := by
  interval_cases k <;> decide

theorem natDigitsAux_shape :
    ∀ (fuel n : Nat) (acc : List Char), n < fuel →
      ∃ ds, natDigitsAux fuel n acc = ds ++ acc ∧ ds ≠ [] ∧
        (∀ c ∈ ds, c ∈ digitChars) ∧ (1 ≤ n → ds.headD ' ' ≠ '0') := by
  intro fuel
  induction fuel with
  | zero => intro n acc h; omega
  | succ fuel ih =>
    intro n acc h
    unfold natDigitsAux
    by_cases h10 : n < 10
    · rw [if_pos h10]
      refine ⟨[digitChar n], rfl, by simp, ?_, ?_⟩
      · intro c hc
        rw [List.mem_singleton.mp hc]
        exact digitChar_mem_digitChars n
      · intro h1
        simpa using digitChar_ne_zero n h1 h10
    · rw [if_neg h10]
      have hlt : n / 10 < fuel := by omega
      obtain ⟨ds, heq, hne, hmem, hz⟩ := ih (n / 10) (digitChar (n % 10) :: acc) hlt
      refine ⟨ds ++ [digitChar (n % 10)], by rw [heq]; simp, by simp [hne], ?_, ?_⟩
      · intro c hc
        rcases List.mem_append.mp hc with h1 | h1
        · exact hmem c h1
        · rw [List.mem_singleton.mp h1]
          exact digitChar_mem_digitChars _
      · intro _
        have h1 : 1 ≤ n / 10 := by omega
        match ds, hne with
        | c :: cs, _ => simpa using hz h1

theorem natDigitsAux_val :
    ∀ (fuel n : Nat) (acc : List Char), n < fuel →
      (natDigitsAux fuel n acc).foldl (fun a c => a * 10 + (c.toNat - 48)) 0 =
        acc.foldl (fun a c => a * 10 + (c.toNat - 48)) n := by
  intro fuel
  induction fuel with
  | zero => intro n acc h; omega
  | succ fuel ih =>
    intro n acc h
    unfold natDigitsAux
    by_cases h10 : n < 10
    · rw [if_pos h10]
      rw [List.foldl_cons]
      congr 1
      rw [digitChar_toNat n h10]
      omega
    · rw [if_neg h10]
      have hlt : n / 10 < fuel := by omega
      rw [ih _ _ hlt, List.foldl_cons]
      congr 1
      rw [digitChar_toNat (n % 10) (by omega)]
      omega

theorem digitsVal_natRepr (n : Nat) : digitsVal (natRepr n).data = n := by
  unfold digitsVal natRepr
  have h := natDigitsAux_val (n + 1) n [] (by omega)
  simpa using h

theorem natRepr_shape (n : Nat) :
    (natRepr n).data ≠ [] ∧ (∀ c ∈ (natRepr n).data, c ∈ digitChars) ∧
      (1 ≤ n → ((natRepr n).data.headD ' ') ≠ '0') := by
  obtain ⟨ds, heq, hne, hmem, hz⟩ := natDigitsAux_shape (n + 1) n [] (by omega)
  have hd : (natRepr n).data = ds := by
    unfold natRepr
    rw [heq]
    simp
  rw [hd]
  exact ⟨hne, hmem, hz⟩

theorem char_eq_of_toNat_eq {c d : Char} (h : c.toNat = d.toNat) : c = d :=
  Char.eq_of_val_eq (UInt32.eq_of_toBitVec_eq (BitVec.eq_of_toNat_eq h))

theorem mem_digitChars_of_isDigit {c : Char} (h : c.isDigit = true) : c ∈ digitChars := by
  unfold Char.isDigit at h
  rw [Bool.and_eq_true, decide_eq_true_eq, decide_eq_true_eq] at h
  obtain ⟨h1, h2⟩ := h
  have h1' : 48 ≤ c.toNat := by
    have hb := BitVec.le_def.mp (UInt32.le_def.mp h1)
    simpa using hb
  have h2' : c.toNat ≤ 57 := by
    have hb := BitVec.le_def.mp (UInt32.le_def.mp h2)
    simpa using hb
  have hd : (digitChar (c.toNat - 48)).toNat = c.toNat := by
    rw [digitChar_toNat _ (by omega)]
    omega
  rw [char_eq_of_toNat_eq hd.symm]
  exact digitChar_mem_digitChars _

theorem isDigit_false_of_isAlpha {c : Char} (h : c.isAlpha = true) : c.isDigit = false := by
  by_contra hd
  rw [Bool.not_eq_false] at hd
  have hm := mem_digitChars_of_isDigit hd
  fin_cases hm <;> exact absurd h (by decide)

/-! ### Strip, scalar and contains lemmas -/

theorem stripL_eq_self_of_bounds {l : List Char}
    (h1 : ∀ c, l.head? = some c → isPyWs c = false)
    (h2 : ∀ c, l.getLast? = some c → isPyWs c = false) :
    stripL l = l := by
  unfold stripL
  have d1 : l.dropWhile isPyWs = l := by
    cases l with
    | nil => rfl
    | cons a as =>
      rw [List.dropWhile_cons_of_neg]
      simp [h1 a rfl]
  rw [d1]
  have d2 : l.reverse.dropWhile isPyWs = l.reverse := by
    cases hr : l.reverse with
    | nil => rfl
    | cons a as =>
      have hg : l.getLast? = some a := by
        rw [List.getLast?_eq_head?_reverse, hr]
        rfl
      rw [List.dropWhile_cons_of_neg]
      simp [h2 a hg]
  rw [d2, List.reverse_reverse]

theorem stripL_eq_self_of_all {l : List Char} (h : ∀ c ∈ l, isPyWs c = false) :
    stripL l = l :=
  stripL_eq_self_of_bounds
    (fun c hc => h c (List.mem_of_mem_head? (by rw [hc]; exact rfl)))
    (fun c hc => h c (List.mem_of_getLast?_eq_some hc))

theorem contains_eq_false_iff {ws : List String} {w : String} :
    ws.contains w = false ↔ ∀ t ∈ ws, ¬ w = t := by
  induction ws with
  | nil => simp
  | cons a as ih =>
    rw [List.contains_cons]
    simp only [Bool.or_eq_false_iff, beq_eq_false_iff_ne, ih, List.mem_cons]
    constructor
    · rintro ⟨hne, hall⟩ t (rfl | ht)
      · exact hne
      · exact hall t ht
    · intro hall
      exact ⟨hall a (Or.inl rfl), fun t ht => hall t (Or.inr ht)⟩

/-- A nonempty all-digit string resolves to the integer it denotes. -/
theorem parseScalar_digits {l : List Char} (hne : l ≠ [])
    (hmem : ∀ c ∈ l, c ∈ digitChars) :
    parseScalar (String.mk l) = .int (digitsVal l) := by
  obtain ⟨c0, cs, rfl⟩ := List.exists_cons_of_ne_nil hne
  have hc0 : c0 ∈ digitChars := hmem c0 (List.mem_cons_self _ _)
  have hstrip : stripL (c0 :: cs) = c0 :: cs :=
    stripL_eq_self_of_all fun c hc => isPyWs_false_of_mem_digitChars (hmem c hc)
  have hword : ∀ (t : String), (t.data.headD ' ' ∈ digitChars → False) →
      ¬ String.mk (c0 :: cs) = t := by
    intro t ht heq
    have hd : c0 :: cs = t.data := congrArg String.data heq
    exact ht (hd ▸ hc0)
  have hints : parseIntDigits (c0 :: cs) = some (digitsVal (c0 :: cs)) := by
    unfold parseIntDigits
    rw [if_neg (by simp), if_pos]
    rw [List.all_eq_true]
    exact fun c hc => isDigit_of_mem_digitChars (hmem c hc)
  unfold parseScalar
  simp only [show (String.mk (c0 :: cs)).data = c0 :: cs from rfl, hstrip]
  rw [if_neg (by simp)]
  rw [if_neg (by
    simp only [Bool.not_eq_true]
    exact contains_eq_false_iff.mpr fun t ht => by
      fin_cases ht <;> exact hword _ (by decide))]
  rw [if_neg (by
    simp only [Bool.not_eq_true]
    exact contains_eq_false_iff.mpr fun t ht => by
      fin_cases ht <;> exact hword _ (by decide))]
  rw [if_neg (by
    simp only [Bool.not_eq_true]
    exact contains_eq_false_iff.mpr fun t ht => by
      fin_cases ht <;> exact hword _ (by decide))]
  rw [if_neg (by
    have : c0 ≠ '-' := by fin_cases hc0 <;> decide
    simp [this])]
  rw [if_pos (by simp [hints])]

/-- The components of a plain title. -/
theorem plainTitle_parts {s : String} (h : plainTitle s = true) :
    s.data ≠ [] ∧
    (∀ c ∈ s.data, (c.isAlphanum || c = ' ' || c = '-' || c = '_' ||
      c = ',' || c = '!' || c = '?') = true) ∧
    ¬((s.data.getLastD ' ') = ' ') ∧
    scalarWords.contains s = false ∧
    ((s.data.headD ' ').isAlpha = true ∨
      ((s.data.headD ' ').isDigit = true ∧ s.data.any Char.isAlpha = true)) := by
  unfold plainTitle at h
  simp only [Bool.and_eq_true, Bool.or_eq_true, Bool.not_eq_true',
    List.isEmpty_eq_false, decide_eq_true_eq] at h
  obtain ⟨⟨⟨⟨hne, hhead⟩, hall⟩, hlast⟩, hwords⟩ := h
  rw [List.all_eq_true] at hall
  rw [decide_eq_false_iff_not] at hlast
  refine ⟨hne, hall, hlast, hwords, ?_⟩
  rcases hhead with h1 | h1
  · exact Or.inl h1
  · obtain ⟨⟨hd, _⟩, hany⟩ := h1
    exact Or.inr ⟨hd, hany⟩

/-- The head of a plain title is not stripped away. -/
theorem plainTitle_head_ws {s : String} (h : plainTitle s = true) :
    isPyWs (s.data.headD ' ') = false := by
  obtain ⟨_, _, _, _, hhd⟩ := plainTitle_parts h
  rcases hhd with h1 | h1
  · exact isPyWs_false_of_isAlpha h1
  · exact isPyWs_false_of_mem_digitChars (mem_digitChars_of_isDigit h1.1)

/-- The strip of a plain title is itself. -/
theorem plainTitle_strip {s : String} (h : plainTitle s = true) :
    stripL s.data = s.data := by
  obtain ⟨hne, hall, hlast, _, _⟩ := plainTitle_parts h
  have hws := plainTitle_head_ws h
  refine stripL_eq_self_of_bounds (fun c hc => ?_) (fun c hc => ?_)
  · obtain ⟨c0, cs, hdata⟩ := List.exists_cons_of_ne_nil hne
    rw [hdata, List.head?_cons] at hc
    injection hc with hc2
    subst hc2
    rw [hdata] at hws
    exact hws
  · refine isPyWs_false_of_allowed (hall c (List.mem_of_getLast?_eq_some hc)) ?_
    intro he
    rw [List.getLastD_eq_getLast?, hc, Option.getD_some] at hlast
    exact hlast he

/-- A plain title resolves to itself. -/
theorem parseScalar_plain {s : String} (h : plainTitle s = true) :
    parseScalar s = .str s := by
  obtain ⟨hne, hall, hlast, hwords, hhd⟩ := plainTitle_parts h
  have hstrip : stripL s.data = s.data := plainTitle_strip h
  obtain ⟨c0, cs, hdata⟩ := List.exists_cons_of_ne_nil hne
  have hc0 : c0.isAlpha = true ∨ (c0.isDigit = true ∧ s.data.any Char.isAlpha = true) := by
    rw [hdata]
    rw [hdata] at hhd
    simpa using hhd
  have hints : parseIntDigits s.data = none := by
    unfold parseIntDigits
    rw [if_neg (by simp [hne])]
    rw [if_neg]
    intro halld
    rw [List.all_eq_true] at halld
    rcases hc0 with h1 | h1
    · have hd0 := halld c0 (by rw [hdata]; exact List.mem_cons_self _ _)
      rw [isDigit_false_of_isAlpha h1] at hd0
      cases hd0
    · rw [List.any_eq_true] at h1
      obtain ⟨a, ha, halp⟩ := h1.2
      have hda := halld a ha
      rw [isDigit_false_of_isAlpha halp] at hda
      cases hda
  have hc0ne : c0 ≠ '-' ∧ c0 ≠ '"' ∧ c0.val ≠ (39 : UInt32) := by
    rcases hc0 with h1 | h1
    · refine ⟨?_, ?_, ?_⟩
      · intro he
        rw [he] at h1
        exact absurd h1 (by decide)
      · intro he
        rw [he] at h1
        exact absurd h1 (by decide)
      · intro he
        have he2 : c0 = '\x27' := Char.eq_of_val_eq (by rw [he]; rfl)
        rw [he2] at h1
        exact absurd h1 (by decide)
    · have hm := mem_digitChars_of_isDigit h1.1
      refine ⟨?_, ?_, ?_⟩ <;> fin_cases hm <;> decide
  have hwne : ∀ sub : List String, (∀ t ∈ sub, t ∈ scalarWords) →
      sub.contains s = false := by
    intro sub hsub
    refine contains_eq_false_iff.mpr fun t ht heq => ?_
    rw [contains_eq_false_iff] at hwords
    exact hwords t (hsub t ht) heq
  have hmk : String.mk s.data = s := by
    cases s
    rfl
  unfold parseScalar
  simp only [hstrip, hmk]
  rw [if_neg (by simp [hne])]
  rw [if_neg (by
    simp only [Bool.not_eq_true]
    exact hwne _ (by decide))]
  rw [if_neg (by
    simp only [Bool.not_eq_true]
    exact hwne _ (by decide))]
  rw [if_neg (by
    simp only [Bool.not_eq_true]
    exact hwne _ (by decide))]
  rw [if_neg (by
    rw [hdata]
    simp [hc0ne.1])]
  rw [if_neg (by simp [hints])]
  rw [if_neg (by
    rw [hdata]
    simp [hc0ne.2.1])]
  rw [if_neg (by
    rw [hdata]
    simp [hc0ne.2.2])]

/-- The single-quoted form of a string, as a character list. -/
theorem sq_wrap_data (s : String) :
    sq.data ++ s.data ++ sq.data = Char.ofNat 39 :: (s.data ++ [Char.ofNat 39]) := by
  simp [sq, List.append_assoc]

/-- A single-quoted scalar is not stripped. -/
theorem stripL_sq (s : String) :
    stripL (sq.data ++ s.data ++ sq.data) = sq.data ++ s.data ++ sq.data := by
  refine stripL_eq_self_of_bounds (fun c hc => ?_) (fun c hc => ?_)
  · rw [sq_wrap_data, List.head?_cons] at hc
    injection hc with hc2
    subst hc2
    decide
  · have hgl : (sq.data ++ s.data ++ sq.data).getLast? = some (Char.ofNat 39) := by
      rw [show sq.data ++ s.data ++ sq.data
          = (sq.data ++ s.data) ++ [Char.ofNat 39] from rfl]
      exact List.getLast?_concat _
    rw [hgl] at hc
    injection hc with hc2
    subst hc2
    decide

/-- A single-quoted scalar resolves to the quoted text. -/
theorem parseScalar_sq (s : String) :
    parseScalar (String.mk (sq.data ++ s.data ++ sq.data)) = .str s := by
  have hdata := sq_wrap_data s
  have hword : ∀ (t : String), (t.data.headD ' ') ≠ Char.ofNat 39 →
      ¬ String.mk (sq.data ++ s.data ++ sq.data) = t := by
    intro t ht heq
    have hd : sq.data ++ s.data ++ sq.data = t.data := congrArg String.data heq
    rw [hdata] at hd
    rw [← hd] at ht
    exact ht rfl
  have hints : parseIntDigits (sq.data ++ s.data ++ sq.data) = none := by
    unfold parseIntDigits
    rw [if_neg (by rw [hdata]; simp)]
    rw [if_neg]
    intro halld
    rw [List.all_eq_true] at halld
    have hd0 := halld (Char.ofNat 39) (by rw [hdata]; exact List.mem_cons_self _ _)
    exact absurd hd0 (by decide)
  have hlen : 2 ≤ (sq.data ++ s.data ++ sq.data).length := by
    rw [hdata]
    simp [List.length_append]
  unfold parseScalar
  simp only [show (String.mk (sq.data ++ s.data ++ sq.data)).data
    = sq.data ++ s.data ++ sq.data from rfl, stripL_sq]
  rw [if_neg (by rw [hdata]; simp)]
  rw [if_neg (by
    simp only [Bool.not_eq_true]
    exact contains_eq_false_iff.mpr fun t ht => by
      fin_cases ht <;> exact hword _ (by decide))]
  rw [if_neg (by
    simp only [Bool.not_eq_true]
    exact contains_eq_false_iff.mpr fun t ht => by
      fin_cases ht <;> exact hword _ (by decide))]
  rw [if_neg (by
    simp only [Bool.not_eq_true]
    exact contains_eq_false_iff.mpr fun t ht => by
      fin_cases ht <;> exact hword _ (by decide))]
  rw [if_neg (by
    rw [hdata]
    simp [show ¬(Char.ofNat 39 = '-') from by decide])]
  rw [if_neg (by rw [hints]; simp)]
  rw [if_neg (by
    rw [hdata]
    simp [show ¬(Char.ofNat 39 = '"') from by decide])]
  have hcond : ((((sq.data ++ s.data ++ sq.data).headD ' ').val = 39 &&
      ((sq.data ++ s.data ++ sq.data).getLastD ' ').val = 39 &&
      2 ≤ (sq.data ++ s.data ++ sq.data).length) : Bool) = true := by
    rw [Bool.and_eq_true, Bool.and_eq_true]
    refine ⟨⟨?_, ?_⟩, ?_⟩
    · rw [hdata]
      simp only [List.headD_cons]
      rfl
    · rw [show sq.data ++ s.data ++ sq.data
          = (sq.data ++ s.data) ++ [Char.ofNat 39] from rfl, List.getLastD_concat]
      rfl
    · rw [decide_eq_true_eq]
      exact hlen
  rw [if_pos hcond]
  have hdrop : (sq.data ++ s.data ++ sq.data).drop 1 = s.data ++ [Char.ofNat 39] := by
    rw [hdata]
    simp
  rw [hdrop, List.dropLast_concat]

/-- A good title is nonempty. -/
theorem goodTitle_ne_nil {s : String} (h : goodTitle s = true) : s.data ≠ [] := by
  intro hnil
  have hs : s = "" := by
    cases s with
    | mk d =>
      have hd : d = [] := hnil
      rw [hd]
  rw [hs] at h
  exact absurd h (by decide)

theorem mem_dropWhile_of_not {p : Char → Bool} {c : Char} :
    ∀ {l : List Char}, c ∈ l → p c = false → c ∈ l.dropWhile p := by
  intro l
  induction l with
  | nil => intro hc _; cases hc
  | cons a as ih =>
    intro hc hp
    by_cases ha : p a
    · rw [List.dropWhile_cons_of_pos ha]
      rcases List.mem_cons.mp hc with rfl | h1
      · rw [hp] at ha; cases ha
      · exact ih h1 hp
    · rw [List.dropWhile_cons_of_neg ha]
      exact hc

theorem stripL_ne_nil {l : List Char} {c : Char} (hc : c ∈ l) (hws : isPyWs c = false) :
    stripL l ≠ [] := by
  unfold stripL
  intro h
  rw [List.reverse_eq_nil_iff] at h
  have h1 : c ∈ l.dropWhile isPyWs := mem_dropWhile_of_not hc hws
  have h2 : c ∈ (l.dropWhile isPyWs).reverse := List.mem_reverse.mpr h1
  have h3 : c ∈ ((l.dropWhile isPyWs).reverse).dropWhile isPyWs :=
    mem_dropWhile_of_not h2 hws
  rw [h] at h3
  cases h3

theorem stripL_cons_ws {c : Char} (hc : isPyWs c = true) (l : List Char) :
    stripL (c :: l) = stripL l := by
  unfold stripL
  rw [List.dropWhile_cons_of_pos hc]

theorem takeWhile_ne_colon (key t : List Char) (h : ':' ∉ key) :
    (key ++ ':' :: t).takeWhile (· ≠ ':') = key ∧
      (key ++ ':' :: t).dropWhile (· ≠ ':') = ':' :: t := by
  induction key with
  | nil => simp [List.takeWhile_cons, List.dropWhile_cons]
  | cons c cs ih =>
    have hc : c ≠ ':' := fun he => h (he ▸ List.mem_cons_self _ _)
    have ih2 := ih fun he => h (List.mem_cons_of_mem _ he)
    simp only [List.cons_append, List.takeWhile_cons, List.dropWhile_cons,
      decide_eq_true_eq]
    constructor
    · rw [if_pos hc, ih2.1]
    · rw [if_pos hc]
      exact ih2.2

theorem splitKeyVal_keyed (key rest : List Char) (hk : key ≠ []) (hkc : ':' ∉ key) :
    splitKeyVal (key ++ ':' :: ' ' :: rest) =
      some (String.mk key, String.mk (stripL (' ' :: rest))) := by
  unfold splitKeyVal
  obtain ⟨ht, hd⟩ := takeWhile_ne_colon key (' ' :: rest) hkc
  rw [ht, hd]
  simp [hk]

/-- The dumped title, stripped and read back by the scalar parser, is the
original title. -/
theorem parseScalar_dumpTitle {s : String} (h : goodTitle s = true) :
    parseScalar (String.mk (stripL (' ' :: (dumpTitle s).data))) = .str s := by
  unfold goodTitle at h
  rw [Bool.or_eq_true] at h
  unfold dumpTitle
  by_cases hq : quotedTitle s = true
  · rw [if_pos hq]
    have hd : (sq ++ s ++ sq).data = sq.data ++ s.data ++ sq.data := by
      rw [String.data_append, String.data_append]
    rw [hd, stripL_cons_ws (by decide), stripL_sq]
    exact parseScalar_sq s
  · rw [if_neg hq]
    have hp : plainTitle s = true := by
      rcases h with h1 | h1
      · exact h1
      · exact absurd h1 hq
    rw [stripL_cons_ws (by decide), plainTitle_strip hp]
    rw [show String.mk s.data = s from by cases s; rfl]
    exact parseScalar_plain hp

theorem isCloseDashes_eq_false {s : String} {c : Char} {l : List Char}
    (hd : s.data = c :: l) (hc : c ≠ '-') : isCloseDashes s = false := by
  unfold isCloseDashes
  rw [hd]
  have hb : ('-' == c) = false := beq_eq_false_iff_ne.mpr (Ne.symm hc)
  simp [beginsWith, hb]

theorem chLine_data (n : Nat) :
    ("chapter: " ++ natRepr n).data = "chapter".data ++ ':' :: ' ' :: (natRepr n).data := by
  rw [String.data_append]
  rfl

theorem daLine_data (dd : String) :
    ("date: " ++ sq ++ dd ++ sq).data =
      "date".data ++ ':' :: ' ' :: (sq.data ++ dd.data ++ sq.data) := by
  rw [String.data_append, String.data_append, String.data_append]
  simp [sq, List.append_assoc]

theorem tiLine_data (title : String) :
    ("title: " ++ dumpTitle title).data =
      "title".data ++ ':' :: ' ' :: (dumpTitle title).data := by
  rw [String.data_append]
  rfl

/-- `mapLine` on a well-formed `key: value` line. -/
theorem mapLine_keyed {s : String} (key rest : List Char)
    (hd : s.data = key ++ ':' :: ' ' :: rest)
    (hk : key ≠ []) (hkc : ':' ∉ key)
    (hhead : key.headD 'x' ≠ ' ' ∧ key.headD 'x' ≠ '\t') :
    mapLine s = some (stripStr (String.mk key), parseScalar (String.mk (stripL (' ' :: rest)))) := by
  unfold mapLine
  rw [hd]
  obtain ⟨k0, ks, rfl⟩ := List.exists_cons_of_ne_nil hk
  simp only [List.cons_append, List.headD_cons] at hhead ⊢
  have hcond : ¬ ((k0 = ' ' || k0 = '\t') = true) := by
    simp only [Bool.or_eq_true, decide_eq_true_eq]
    rintro (h | h)
    · exact hhead.1 h
    · exact hhead.2 h
  rw [if_neg hcond]
  rw [← List.cons_append]
  rw [splitKeyVal_keyed _ _ hk hkc]

/-- The frontmatter block written by `new_chapter` loads back as the expected
three-key mapping. -/
theorem parseFrontmatter_newChapter (title dd : String) (n : Nat)
    (hg : goodTitle title = true) :
    parseFrontmatter (newChapterContent title n dd) =
      some (.dict
        [("chapter", .int (n : Int)),
         ("date", parseScalar (String.mk (stripL (' ' :: (sq.data ++ dd.data ++ sq.data))))),
         ("title", .str title)]) := by
  obtain ⟨hnrne, hnrmem, _⟩ := natRepr_shape n
  have hchD : ("chapter: " ++ natRepr n).data
      = 'c' :: ("hapter".data ++ ':' :: ' ' :: (natRepr n).data) := by
    rw [chLine_data n]; rfl
  have hdaD : ("date: " ++ sq ++ dd ++ sq).data
      = 'd' :: ("ate".data ++ ':' :: ' ' :: (sq.data ++ dd.data ++ sq.data)) := by
    rw [daLine_data dd]; rfl
  have htiD : ("title: " ++ dumpTitle title).data
      = 't' :: ("itle".data ++ ':' :: ' ' :: (dumpTitle title).data) := by
    rw [tiLine_data title]; rfl
  have hc1 : isCloseDashes ("chapter: " ++ natRepr n) = false :=
    isCloseDashes_eq_false hchD (by decide)
  have hc2 : isCloseDashes ("date: " ++ sq ++ dd ++ sq) = false :=
    isCloseDashes_eq_false hdaD (by decide)
  have hc3 : isCloseDashes ("title: " ++ dumpTitle title) = false :=
    isCloseDashes_eq_false htiD (by decide)
  have hs1 : (!(stripL ("chapter: " ++ natRepr n).data).isEmpty) = true := by
    have h := @stripL_ne_nil (("chapter: " ++ natRepr n).data) 'c'
      (by rw [hchD]; exact List.mem_cons_self _ _) (by decide)
    simpa using h
  have hs2 : (!(stripL ("date: " ++ sq ++ dd ++ sq).data).isEmpty) = true := by
    have h := @stripL_ne_nil (("date: " ++ sq ++ dd ++ sq).data) 'd'
      (by rw [hdaD]; exact List.mem_cons_self _ _) (by decide)
    simpa using h
  have hs3 : (!(stripL ("title: " ++ dumpTitle title).data).isEmpty) = true := by
    have h := @stripL_ne_nil (("title: " ++ dumpTitle title).data) 't'
      (by rw [htiD]; exact List.mem_cons_self _ _) (by decide)
    simpa using h
  have hm1 : mapLine ("chapter: " ++ natRepr n) = some ("chapter", .int (n : Int)) := by
    rw [mapLine_keyed "chapter".data ((natRepr n).data) (chLine_data n)
      (by decide) (by decide) (by decide)]
    have hv : stripL (' ' :: (natRepr n).data) = (natRepr n).data := by
      rw [stripL_cons_ws (by decide)]
      exact stripL_eq_self_of_all fun c hc =>
        isPyWs_false_of_mem_digitChars (hnrmem c hc)
    rw [hv]
    rw [show (String.mk (natRepr n).data : String) = natRepr n from by cases hnr : natRepr n; rfl]
    rw [parseScalar_digits hnrne hnrmem]
    rw [digitsVal_natRepr]
    rfl
  have hm2 : mapLine ("date: " ++ sq ++ dd ++ sq) =
      some ("date", parseScalar (String.mk (stripL (' ' :: (sq.data ++ dd.data ++ sq.data))))) := by
    rw [mapLine_keyed "date".data (sq.data ++ dd.data ++ sq.data) (daLine_data dd)
      (by decide) (by decide) (by decide)]
    rfl
  have hm3 : mapLine ("title: " ++ dumpTitle title) = some ("title", .str title) := by
    rw [mapLine_keyed "title".data (dumpTitle title).data (tiLine_data title)
      (by decide) (by decide) (by decide)]
    rw [parseScalar_dumpTitle hg]
    rfl
  have hfind : findCloseAux
      ["chapter: " ++ natRepr n, "date: " ++ sq ++ dd ++ sq,
        "title: " ++ dumpTitle title, "---", "", "# " ++ title, "", ""] 1 = some 4 := by
    unfold findCloseAux
    rw [hc1]
    unfold findCloseAux
    rw [hc2]
    unfold findCloseAux
    rw [hc3]
    rfl
  have hyaml : miniYamlE
      ["", "chapter: " ++ natRepr n, "date: " ++ sq ++ dd ++ sq,
        "title: " ++ dumpTitle title] =
      some (.dict
        [("chapter", .int (n : Int)),
         ("date", parseScalar (String.mk (stripL (' ' :: (sq.data ++ dd.data ++ sq.data))))),
         ("title", .str title)]) := by
    have hsig : (["", "chapter: " ++ natRepr n, "date: " ++ sq ++ dd ++ sq,
        "title: " ++ dumpTitle title].filter fun l => !(stripL l.data).isEmpty)
        = ["chapter: " ++ natRepr n, "date: " ++ sq ++ dd ++ sq,
            "title: " ++ dumpTitle title] := by
      simp only [List.filter_cons, hs1, hs2, hs3, if_true, List.filter_nil]
      exact if_neg (by decide)
    unfold miniYamlE
    simp only [hsig]
    have hmap : List.mapM mapLine
        ["chapter: " ++ natRepr n, "date: " ++ sq ++ dd ++ sq,
          "title: " ++ dumpTitle title]
        = some [("chapter", Yaml.int (n : Int)),
            ("date", parseScalar (String.mk (stripL (' ' :: (sq.data ++ dd.data ++ sq.data))))),
            ("title", Yaml.str title)] := by
      simp only [List.mapM_cons, List.mapM_nil, hm1, hm2, hm3, Option.bind_eq_bind,
        Option.bind_some, Option.pure_def, Option.some_bind]
    simp only [hmap]
  simp only [parseFrontmatter, newChapterContent,
    show beginsWith ['-', '-', '-'] ("---" : String).data = true from by decide,
    if_true, hfind]
  rw [show List.take (4 - 1)
      ["chapter: " ++ natRepr n, "date: " ++ sq ++ dd ++ sq,
        "title: " ++ dumpTitle title, "---", "", "# " ++ title, "", ""]
    = ["chapter: " ++ natRepr n, "date: " ++ sq ++ dd ++ sq,
        "title: " ++ dumpTitle title] from rfl]
  rw [show String.mk (List.drop 3 ("---" : String).data) = "" from rfl]
  rw [hyaml]

/-! ### C9: the writer / auto-detector round trip -/

theorem leadsTo_refl_append (r xs : FPath) : leadsTo r (r ++ xs) = true := by
  induction r with
  | nil => rfl
  | cons a as ih => simp [leadsTo, ih]

theorem leadsTo_snoc_snoc (r : FPath) (a b : String) :
    leadsTo (r ++ [a]) (r ++ [b]) = (a == b) := by
  induction r with
  | nil => simp [leadsTo]
  | cons x xs ih => simp [leadsTo, ih]

theorem lastName_snoc (r : FPath) (f : String) : lastName (r ++ [f]) = f := by
  unfold lastName
  exact List.getLastD_concat _ _ _

theorem beginsWith_refl_append (l r : List Char) : beginsWith l (l ++ r) = true := by
  induction l with
  | nil => rfl
  | cons a as ih => simp [beginsWith, ih]

theorem endsWithL_refl_append (suf pre : List Char) : endsWithL suf (pre ++ suf) = true := by
  unfold endsWithL
  rw [List.reverse_append]
  exact beginsWith_refl_append _ _

/-- The decimal field of the writer filename: a leading digit, and a nonzero
second character whenever the first is the padding `0` (writer numbers are
at least 1). -/
theorem fmt02_data (n : Nat) (h1 : 1 ≤ n) :
    ∃ c0 rest, (fmt02 n).data = c0 :: rest ∧ c0 ∈ digitChars ∧
      (c0 = '0' → ∃ c1 rest2, rest = c1 :: rest2 ∧ c1 ≠ '0') := by
  obtain ⟨hne, hmem, hz⟩ := natRepr_shape n
  by_cases h : n < 10
  · refine ⟨'0', (natRepr n).data, ?_, by decide, ?_⟩
    · unfold fmt02
      rw [if_pos h, String.data_append]
      rfl
    · intro _
      obtain ⟨d, ds, hd⟩ := List.exists_cons_of_ne_nil hne
      refine ⟨d, ds, hd, ?_⟩
      intro hd0
      have hz2 := hz h1
      rw [hd] at hz2
      exact hz2 hd0
  · obtain ⟨d, ds, hd⟩ := List.exists_cons_of_ne_nil hne
    refine ⟨d, ds, ?_, hmem d (by rw [hd]; exact List.mem_cons_self _ _), ?_⟩
    · unfold fmt02
      rw [if_neg h]
      exact hd
    · intro hd0
      have hz2 := hz h1
      rw [hd] at hz2
      exact absurd hd0 hz2

theorem newChapterFileName_data (title : String) (n : Nat) :
    (newChapterFileName title n).data =
      (fmt02 n).data ++ '-' :: ((slugify title).data ++ ['.', 'm', 'd']) := by
  unfold newChapterFileName
  simp only [String.data_append, List.append_assoc]
  rfl

/-- The writer filename starts with two characters: a digit, then a character
that is not `0` when the first one is. -/
theorem newChapterFileName_shape (title : String) (n : Nat) (h1 : 1 ≤ n) :
    ∃ c0 c1 cs, (newChapterFileName title n).data = c0 :: c1 :: cs ∧
      c0 ∈ digitChars ∧ (c0 = '0' → c1 ≠ '0') := by
  obtain ⟨c0, rest, hf, hc0, hrest⟩ := fmt02_data n h1
  have hdata := newChapterFileName_data title n
  rw [hf] at hdata
  cases rest with
  | nil =>
    refine ⟨c0, '-', (slugify title).data ++ ['.', 'm', 'd'], hdata, hc0, ?_⟩
    intro h0
    obtain ⟨c1x, r2x, hr, _⟩ := hrest h0
    cases hr
  | cons c1 rest2 =>
    refine ⟨c0, c1, rest2 ++ '-' :: ((slugify title).data ++ ['.', 'm', 'd']),
      hdata, hc0, ?_⟩
    intro h0
    obtain ⟨c1x, r2x, hr, hne0⟩ := hrest h0
    injection hr with hh _
    rw [hh]
    exact hne0

theorem ne_from_head {f m : String} {c0 c1 : Char} {cs : List Char}
    (hdata : f.data = c0 :: c1 :: cs) (hc0 : c0 ∈ digitChars)
    (hm : (m.data.headD ' ') ∉ digitChars) : f ≠ m := by
  intro he
  rw [← he, hdata] at hm
  exact hm hc0

theorem ne_from_two {f m : String} {c0 c1 : Char} {cs rest : List Char}
    (hdata : f.data = c0 :: c1 :: cs) (h01 : c0 = '0' → c1 ≠ '0')
    (hm : m.data = '0' :: '0' :: rest) : f ≠ m := by
  intro he
  rw [he, hm] at hdata
  injection hdata with h0 h
  injection h with h1 _
  exact h01 h0.symm h1.symm

theorem upper_ne_from_head {f m : String} {c0 c1 : Char} {cs : List Char}
    (hdata : f.data = c0 :: c1 :: cs) (hc0 : c0 ∈ digitChars)
    (hm : (m.data.headD ' ') ∉ digitChars) : upperStr f ≠ m := by
  intro he
  rw [← he] at hm
  have hd : (upperStr f).data = f.data.map Char.toUpper := rfl
  rw [hd, hdata] at hm
  exact hm (show Char.toUpper c0 ∈ digitChars from by
    rw [toUpper_of_mem_digitChars hc0]; exact hc0)

theorem strBegins_false_head {pre f : String} {p0 c0 : Char} {ps cs : List Char}
    (hpre : pre.data = p0 :: ps) (hdata : f.data = c0 :: cs)
    (hne : (p0 == c0) = false) : strBegins pre f = false := by
  unfold strBegins
  rw [hpre, hdata]
  simp [beginsWith, hne]

theorem beq_false_of_digit {c : Char} (hc : c ∈ digitChars) {d : Char}
    (hd : d ∉ digitChars) : (d == c) = false := by
  rw [beq_eq_false_iff_ne]
  intro he
  rw [he] at hd
  exact hd hc

/-- Equality test of two sibling paths reduces to their final names. -/
theorem snoc_beq (r : FPath) (a b : String) :
    ((r ++ [a]) == (r ++ [b])) = (a == b) := by
  by_cases h : a = b
  · subst h
    simp
  · have h2 : r ++ [a] ≠ r ++ [b] := by
      intro he
      exact h (by simpa using he)
    rw [beq_eq_false_iff_ne.mpr h2, beq_eq_false_iff_ne.mpr h]

theorem pathExists_dirFS (root : FPath) (es : List (String × List String)) (x : String) :
    pathExists (dirFS root es) (root ++ [x]) = es.any (fun e => x == e.1) := by
  unfold pathExists dirFS
  induction es with
  | nil => rfl
  | cons e es ih =>
    simp only [List.map_cons, List.any_cons, leadsTo_snoc_snoc, ih]

theorem fsRead_dirFS (root : FPath) :
    ∀ (es : List (String × List String)), (es.map (fun e => e.1)).Nodup →
      ∀ (f : String) (c : List String), (f, c) ∈ es →
        fsRead (dirFS root es) (root ++ [f]) = some c := by
  intro es
  induction es with
  | nil =>
    intro _ f c hmem
    cases hmem
  | cons e es ih =>
    intro hnd f c hmem
    rw [List.map_cons, List.nodup_cons] at hnd
    rcases List.mem_cons.mp hmem with he | hmem2
    · subst he
      simp only [fsRead, dirFS, List.map_cons, List.find?_cons, snoc_beq,
        beq_self_eq_true]
      rfl
    · have hne : e.1 ≠ f := by
        intro he
        refine hnd.1 ?_
        rw [he]
        exact List.mem_map_of_mem _ hmem2
      simp only [fsRead, dirFS, List.map_cons, List.find?_cons, snoc_beq,
        beq_eq_false_iff_ne.mpr hne]
      exact ih hnd.2 f c hmem2

theorem childNames_dirFS (root : FPath) (es : List (String × List String)) :
    childNames (dirFS root es) root = (es.map (fun e => e.1)).dedup := by
  have hone : ∀ f : String,
      (if root.length < (root ++ [f]).length && leadsTo root (root ++ [f])
        then ((root ++ [f]).drop root.length).head? else none) = some f := by
    intro f
    simp [List.length_append, Nat.lt_succ_self, leadsTo_refl_append, List.drop_left]
  unfold childNames dirFS
  congr 1
  induction es with
  | nil => rfl
  | cons e es ih =>
    simp only [List.map_cons, List.filterMap_cons, hone]
    rw [ih]

/-- `_collect_markdown_files` on a directory of markdown files that match no
chapter-directory, manifest, intro or skip name. -/
theorem collect_dir (root : FPath) (es : List (String × List String))
    (hnd : (es.map (fun e => e.1)).Nodup)
    (hmd : ∀ e ∈ es, endsWithL ['.', 'm', 'd'] e.1.data = true)
    (hch : ∀ e ∈ es, strBegins "chapter-" e.1 = false)
    (hus : ∀ e ∈ es, strBegins "_" e.1 = false)
    (hsum : ∀ e ∈ es, upperStr e.1 ≠ "SUMMARY.MD")
    (hbook : ∀ e ∈ es, upperStr e.1 ≠ "BOOK.TXT")
    (hintro : ∀ e ∈ es, e.1 ∉ introFilesList)
    (hskip : ∀ e ∈ es, e.1 ∉ skipFilesList) :
    collectMarkdownFiles (dirFS root es) root = es.map (fun e => root ++ [e.1]) := by
  have hcn : childNames (dirFS root es) root = es.map (fun e => e.1) := by
    rw [childNames_dirFS]
    exact List.dedup_eq_self.mpr hnd
  have hchd : ((es.map (fun e => e.1)).filter fun n => strBegins "chapter-" n) = [] := by
    rw [List.filter_eq_nil_iff]
    intro a ha
    obtain ⟨e, he, rfl⟩ := List.mem_map.mp ha
    simp [hch e he]
  have hmdn : ((es.map (fun e => e.1)).filter fun n => endsWithL ['.', 'm', 'd'] n.data)
      = es.map (fun e => e.1) := by
    rw [List.filter_eq_self]
    intro a ha
    obtain ⟨e, he, rfl⟩ := List.mem_map.mp ha
    exact hmd e he
  have hbig : ((es.map (fun e => e.1)).filter fun n =>
      !strBegins "_" n &&
      upperStr n ≠ "SUMMARY.MD" && upperStr n ≠ "BOOK.TXT" &&
      n ∉ introFilesList &&
      n ∉ skipFilesList) = es.map (fun e => e.1) := by
    rw [List.filter_eq_self]
    intro a ha
    obtain ⟨e, he, rfl⟩ := List.mem_map.mp ha
    simp [hus e he, hsum e he, hbook e he, hintro e he, hskip e he]
  unfold collectMarkdownFiles mdNames
  rw [hcn, hchd]
  rw [show sortStrs ([] : List String) = [] from rfl]
  simp only [List.isEmpty_nil, Bool.not_true, Bool.false_eq_true, if_false]
  rw [hmdn, hbig, List.map_map]
  rfl

theorem revDotSplit_append :
    ∀ (a : List Char), '.' ∉ a → ∀ b : List Char,
      revDotSplit (a ++ '.' :: b) = some (a, b) := by
  intro a
  induction a with
  | nil =>
    intro _ b
    rfl
  | cons c cs ih =>
    intro h b
    have hc : c ≠ '.' := fun he => h (he ▸ List.mem_cons_self _ _)
    have ih2 := ih (fun hm => h (List.mem_cons_of_mem _ hm)) b
    rw [List.cons_append]
    unfold revDotSplit
    rw [if_neg hc, ih2]

/-- The stem of a writer filename: the two-digit field, the dash and the
slug. -/
theorem stemOf_newChapterFileName (t : String) (n : Nat) :
    stemOf (newChapterFileName t n) =
      String.mk ((fmt02 n).data ++ '-' :: (slugify t).data) := by
  unfold stemOf
  rw [newChapterFileName_data]
  unfold stemOfL
  have hrev : ((fmt02 n).data ++ '-' :: ((slugify t).data ++ ['.', 'm', 'd'])).reverse
      = ['d', 'm'] ++ '.' :: ((fmt02 n).data ++ '-' :: (slugify t).data).reverse := by
    rw [show (fmt02 n).data ++ '-' :: ((slugify t).data ++ ['.', 'm', 'd'])
        = ((fmt02 n).data ++ '-' :: (slugify t).data) ++ ['.', 'm', 'd'] from by
          simp [List.append_assoc]]
    rw [List.reverse_append]
    rfl
  rw [hrev, revDotSplit_append ['d', 'm'] (by decide)]
  have hbef : ((((fmt02 n).data ++ '-' :: (slugify t).data).reverse).isEmpty
      || (['d', 'm'] : List Char).isEmpty) = false := by
    simp
  simp only [hbef, Bool.false_eq_true, if_false, List.reverse_reverse]

theorem takeWhile_append_not {p : Char → Bool} {y : Char} (hy : p y = false) :
    ∀ (xs ys : List Char), (∀ c ∈ xs, p c = true) →
      (xs ++ y :: ys).takeWhile p = xs := by
  intro xs ys
  induction xs with
  | nil =>
    intro _
    rw [List.nil_append]
    simp [List.takeWhile_cons, hy]
  | cons x xs ih =>
    intro hall
    rw [List.cons_append,
      List.takeWhile_cons_of_pos (hall x (List.mem_cons_self _ _))]
    rw [ih fun c hc => hall c (List.mem_cons_of_mem _ hc)]

theorem digitsVal_cons_zero (l : List Char) : digitsVal ('0' :: l) = digitsVal l := by
  unfold digitsVal
  rw [List.foldl_cons]
  rfl

/-- `fmt02` writes a nonempty digit run denoting the padded number. -/
theorem fmt02_digits (n : Nat) :
    (fmt02 n).data ≠ [] ∧ (∀ c ∈ (fmt02 n).data, c ∈ digitChars) ∧
      digitsVal (fmt02 n).data = n := by
  obtain ⟨hne, hmem, _⟩ := natRepr_shape n
  unfold fmt02
  by_cases h : n < 10
  · rw [if_pos h]
    refine ⟨?_, ?_, ?_⟩
    · rw [String.data_append]
      simp
    · intro c hc
      rw [String.data_append] at hc
      rcases List.mem_append.mp hc with h1 | h1
      · have h2 : c = '0' := by simpa using h1
        rw [h2]
        decide
      · exact hmem c h1
    · rw [String.data_append,
        show ("0" : String).data = ['0'] from rfl, List.singleton_append,
        digitsVal_cons_zero, digitsVal_natRepr]
  · rw [if_neg h]
    exact ⟨hne, hmem, digitsVal_natRepr n⟩

/-- `_extract_sort_key`'s number on a writer filename is the written chapter
number, recovered from the leading digit run of the stem. -/
theorem extractNumOf_written (q : FPath) (t : String) (n : Nat) :
    extractNumOf (q ++ [newChapterFileName t n]) = some n := by
  obtain ⟨hfne, hfmem, hfval⟩ := fmt02_digits n
  obtain ⟨d, ds, hd⟩ := List.exists_cons_of_ne_nil hfne
  unfold extractNumOf
  simp only [lastName_snoc, stemOf_newChapterFileName]
  have hhead : ((((fmt02 n).data ++ '-' :: (slugify t).data)).headD ' ').isDigit = true := by
    rw [hd]
    exact isDigit_of_mem_digitChars (hfmem d (by rw [hd]; exact List.mem_cons_self _ _))
  rw [if_pos hhead]
  rw [takeWhile_append_not (by decide) _ _
    (fun c hc => isDigit_of_mem_digitChars (hfmem c hc))]
  rw [hfval]

theorem keyLtB_lt_num {n1 n2 : Nat} (h : n1 < n2) (s1 s2 l1 l2 : String) :
    keyLtB ((n1, s1), l1) ((n2, s2), l2) = true ∧
      keyLtB ((n2, s2), l2) ((n1, s1), l1) = false := by
  constructor
  · simp [keyLtB, h]
  · simp [keyLtB, Nat.lt_asymm h, h]

/-- Sibling writer files with smaller numbers sort strictly earlier. -/
theorem pathLtB_written_lt {q : FPath} {t1 t2 : String} {n1 n2 : Nat} (h : n1 < n2) :
    pathLtB (q ++ [newChapterFileName t1 n1]) (q ++ [newChapterFileName t2 n2]) = true ∧
    pathLtB (q ++ [newChapterFileName t2 n2]) (q ++ [newChapterFileName t1 n1]) = false := by
  unfold pathLtB fullKey extractSortKey
  simp only [extractNumOf_written]
  exact ⟨(keyLtB_lt_num h _ _ _ _).1, (keyLtB_lt_num h _ _ _ _).2⟩

theorem written_path_ne {q : FPath} {t1 t2 : String} {n1 n2 : Nat} (h : n1 ≠ n2) :
    q ++ [newChapterFileName t1 n1] ≠ q ++ [newChapterFileName t2 n2] := by
  intro he
  have h2 := extractNumOf_written q t1 n1
  rw [he, extractNumOf_written] at h2
  injection h2 with h3
  exact h h3.symm

theorem written_name_ne {t1 t2 : String} {n1 n2 : Nat} (h : n1 ≠ n2) :
    newChapterFileName t1 n1 ≠ newChapterFileName t2 n2 := by
  intro he
  exact @written_path_ne [] t1 t2 n1 n2 h (by rw [he])

/-- The stable sort leaves an already strictly sorted list unchanged. -/
theorem stableSortBy_sorted (ltB : FPath → FPath → Bool) :
    ∀ l : List FPath, List.Pairwise (fun a b => ltB b a = false) l →
      stableSortBy ltB l = l := by
  intro l
  induction l with
  | nil =>
    intro _
    rfl
  | cons x xs ih =>
    intro hp
    rw [List.pairwise_cons] at hp
    have hx : stableSortBy ltB (x :: xs) = insertSorted ltB x (stableSortBy ltB xs) := rfl
    rw [hx, ih hp.2]
    cases xs with
    | nil => rfl
    | cons y ys =>
      unfold insertSorted
      simp only [hp.1 y (List.mem_cons_self _ _), Bool.false_eq_true, if_false]

theorem pyTruthy_dict_cons (kv : String × Yaml) (l : List (String × Yaml)) :
    pyTruthy (Yaml.dict (kv :: l)) = true := rfl

/-- The numbered loop of `_auto_detect` over paths that are all fresh,
unskipped, titled and enriched as given. -/
theorem autoLoop_spec (fs : FS) :
    ∀ (items : List (FPath × Yaml × Chapter)) (num : Nat) (acc : List Chapter),
      (∀ i ∈ items, lastName i.1 ∉ skipFilesList) →
      (∀ i ∈ items, autoTitle fs i.1 = .ok i.2.1) →
      (∀ i ∈ items, ∀ m : Int,
        enrichWithFrontmatter fs { number := m, title := i.2.1, file_path := i.1 }
          = .ok i.2.2) →
      (∀ i ∈ items, i.2.2.file_path = i.1) →
      (∀ i ∈ items, ∀ c ∈ acc, (c.file_path == i.1) = false) →
      List.Pairwise (fun a b => a.1 ≠ b.1) items →
      autoLoop fs (items.map (fun i => i.1)) num acc
        = .ok (acc ++ items.map (fun i => i.2.2)) := by
  intro items
  induction items with
  | nil =>
    intro num acc _ _ _ _ _ _
    simp [autoLoop]
  | cons i its ih =>
    intro num acc hskip hT hE hfp hacc hpw
    rw [List.pairwise_cons] at hpw
    rw [List.map_cons]
    unfold autoLoop
    have hany : (acc.any fun c => c.file_path == i.1) = false :=
      List.any_eq_false.mpr fun c hc => by
        rw [hacc i (List.mem_cons_self _ _) c hc]
        simp
    simp only [hany, Bool.false_eq_true, if_false]
    rw [if_neg (hskip i (List.mem_cons_self _ _))]
    simp only [hT i (List.mem_cons_self _ _), except_bind_ok,
      hE i (List.mem_cons_self _ _)]
    have hacc2 : ∀ j ∈ its, ∀ c ∈ acc ++ [i.2.2], (c.file_path == j.1) = false := by
      intro j hj c hc
      rcases List.mem_append.mp hc with h1 | h1
      · exact hacc j (List.mem_cons_of_mem _ hj) c h1
      · have hcj : c = i.2.2 := by simpa using h1
        rw [hcj, hfp i (List.mem_cons_self _ _)]
        exact beq_eq_false_iff_ne.mpr (hpw.1 j hj)
    rw [ih (num + 1) (acc ++ [i.2.2])
      (fun j hj => hskip j (List.mem_cons_of_mem _ hj))
      (fun j hj => hT j (List.mem_cons_of_mem _ hj))
      (fun j hj => hE j (List.mem_cons_of_mem _ hj))
      (fun j hj => hfp j (List.mem_cons_of_mem _ hj))
      hacc2 hpw.2]
    simp

/-- C9 (confirmed): every chapter directory produced by the writer's
new-chapter logic — each file `NN-slug.md` holding frontmatter `chapter: NN`,
a quoted date and the dumped `title` — is detected by the auto-detector with
exactly the written numbers and titles, in number order.  The hypotheses are
the writer's own guarantees: numbers at least 1 and strictly increasing in
listing order (`get_next_chapter_number` always exceeds every existing
number), and titles in the covered `yaml.dump` fragment (`goodTitle`: plain
scalars, including titles with commas and digit-leading words, plus the
single-quoted reserved words and digit runs). -/
theorem c9_theorem (croot : FPath) (chs : List (String × Nat × String))
    (hgood : ∀ c ∈ chs, goodTitle c.1 = true)
    (hpos : ∀ c ∈ chs, 1 ≤ c.2.1)
    (hmono : List.Pairwise (fun a b => a.2.1 < b.2.1) chs) :
    ∃ s, autoDetect (dirFS croot (chs.map fun c =>
        (newChapterFileName c.1 c.2.1, newChapterContent c.1 c.2.1 c.2.2))) croot
        = .ok s ∧
      s.chapters.map (fun c => (c.number, c.title)) =
        chs.map (fun c => ((c.2.1 : Int), Yaml.str c.1)) := by
  have hshape := fun c hc => newChapterFileName_shape c.1 c.2.1 (hpos c hc)
  have hintrof : ∀ c ∈ chs, newChapterFileName c.1 c.2.1 ∉ introFilesList := by
    intro c hc
    obtain ⟨c0, c1, cs, hdata, hc0, h01⟩ := hshape c hc
    intro hmem
    simp only [introFilesList, List.mem_cons, List.not_mem_nil, or_false] at hmem
    have h7 : newChapterFileName c.1 c.2.1 ≠ "00-introduction.md" :=
      ne_from_two hdata h01 rfl
    have h8 : newChapterFileName c.1 c.2.1 ≠ "00-intro.md" :=
      ne_from_two hdata h01 rfl
    rcases hmem with he | he | he | he | he | he | he | he
    · exact ne_from_head hdata hc0 (by decide) he
    · exact ne_from_head hdata hc0 (by decide) he
    · exact ne_from_head hdata hc0 (by decide) he
    · exact ne_from_head hdata hc0 (by decide) he
    · exact ne_from_head hdata hc0 (by decide) he
    · exact ne_from_head hdata hc0 (by decide) he
    · exact h7 he
    · exact h8 he
  have hskipf : ∀ c ∈ chs, newChapterFileName c.1 c.2.1 ∉ skipFilesList := by
    intro c hc
    obtain ⟨c0, c1, cs, hdata, hc0, h01⟩ := hshape c hc
    intro hmem
    simp only [skipFilesList, List.mem_cons, List.not_mem_nil, or_false] at hmem
    rcases hmem with he | he | he | he
    all_goals exact ne_from_head hdata hc0 (by decide) he
  have hmdf : ∀ c ∈ chs,
      endsWithL ['.', 'm', 'd'] (newChapterFileName c.1 c.2.1).data = true := by
    intro c _
    rw [newChapterFileName_data]
    have h := endsWithL_refl_append ['.', 'm', 'd']
      ((fmt02 c.2.1).data ++ '-' :: (slugify c.1).data)
    simpa [List.append_assoc] using h
  have hchf : ∀ c ∈ chs, strBegins "chapter-" (newChapterFileName c.1 c.2.1) = false := by
    intro c hc
    obtain ⟨c0, c1, cs, hdata, hc0, h01⟩ := hshape c hc
    exact strBegins_false_head rfl hdata (beq_false_of_digit hc0 (by decide))
  have husf : ∀ c ∈ chs, strBegins "_" (newChapterFileName c.1 c.2.1) = false := by
    intro c hc
    obtain ⟨c0, c1, cs, hdata, hc0, h01⟩ := hshape c hc
    exact strBegins_false_head rfl hdata (beq_false_of_digit hc0 (by decide))
  have hsumf : ∀ c ∈ chs, upperStr (newChapterFileName c.1 c.2.1) ≠ "SUMMARY.MD" := by
    intro c hc
    obtain ⟨c0, c1, cs, hdata, hc0, h01⟩ := hshape c hc
    exact upper_ne_from_head hdata hc0 (by decide)
  have hbookf : ∀ c ∈ chs, upperStr (newChapterFileName c.1 c.2.1) ≠ "BOOK.TXT" := by
    intro c hc
    obtain ⟨c0, c1, cs, hdata, hc0, h01⟩ := hshape c hc
    exact upper_ne_from_head hdata hc0 (by decide)
  have hnodup : ((chs.map fun c =>
      (newChapterFileName c.1 c.2.1, newChapterContent c.1 c.2.1 c.2.2)).map
        (fun e => e.1)).Nodup := by
    rw [List.map_map]
    exact List.Pairwise.map _ (fun a b hab => written_name_ne (Nat.ne_of_lt hab)) hmono
  have hread : ∀ c ∈ chs, fsRead (dirFS croot (chs.map fun c =>
      (newChapterFileName c.1 c.2.1, newChapterContent c.1 c.2.1 c.2.2)))
      (croot ++ [newChapterFileName c.1 c.2.1])
      = some (newChapterContent c.1 c.2.1 c.2.2) := by
    intro c hc
    exact fsRead_dirFS croot _ hnodup _ _ (List.mem_map_of_mem _ hc)
  have hfm : ∀ c ∈ chs, parseFrontmatter (newChapterContent c.1 c.2.1 c.2.2) =
      some (.dict
        [("chapter", .int (c.2.1 : Int)),
         ("date", parseScalar (String.mk (stripL
           (' ' :: (sq.data ++ c.2.2.data ++ sq.data))))),
         ("title", .str c.1)]) :=
    fun c hc => parseFrontmatter_newChapter c.1 c.2.2 c.2.1 (hgood c hc)
  have hat : ∀ c ∈ chs, autoTitle (dirFS croot (chs.map fun c =>
      (newChapterFileName c.1 c.2.1, newChapterContent c.1 c.2.1 c.2.2)))
      (croot ++ [newChapterFileName c.1 c.2.1]) = .ok (Yaml.str c.1) := by
    intro c hc
    unfold autoTitle
    rw [extract_title_tier (hread c hc) (hfm c hc) rfl]
    have hTstr : pyTruthy (Yaml.str c.1) = true :=
      bne_iff_ne.mpr fun he => goodTitle_ne_nil (hgood c hc) (by rw [he])
    simp [except_bind_ok, hTstr, except_pure]
  have henr : ∀ c ∈ chs, ∀ m : Int,
      enrichWithFrontmatter (dirFS croot (chs.map fun c =>
        (newChapterFileName c.1 c.2.1, newChapterContent c.1 c.2.1 c.2.2)))
        { number := m, title := Yaml.str c.1,
          file_path := croot ++ [newChapterFileName c.1 c.2.1] } =
      .ok (Chapter.mk (c.2.1 : Int) (Yaml.str c.1)
        (croot ++ [newChapterFileName c.1 c.2.1]) false (Yaml.bool false) Yaml.nil
        (some (pyStr (parseScalar (String.mk (stripL
          (' ' :: (sq.data ++ c.2.2.data ++ sq.data)))))))
        (Yaml.dict
          [("chapter", Yaml.int (c.2.1 : Int)),
           ("date", parseScalar (String.mk (stripL
             (' ' :: (sq.data ++ c.2.2.data ++ sq.data))))),
           ("title", Yaml.str c.1)])) := by
    intro c hc m
    unfold enrichWithFrontmatter
    simp only [hread c hc]
    simp only [hfm c hc]
    rw [if_pos (pyTruthy_dict_cons _ _)]
    rw [fmUpdates_dict]
    simp only [except_bind_ok]
    rfl
  have hcoll := collect_dir croot (chs.map fun c =>
      (newChapterFileName c.1 c.2.1, newChapterContent c.1 c.2.1 c.2.2)) hnodup
    (by intro e he; obtain ⟨c, hc, rfl⟩ := List.mem_map.mp he; exact hmdf c hc)
    (by intro e he; obtain ⟨c, hc, rfl⟩ := List.mem_map.mp he; exact hchf c hc)
    (by intro e he; obtain ⟨c, hc, rfl⟩ := List.mem_map.mp he; exact husf c hc)
    (by intro e he; obtain ⟨c, hc, rfl⟩ := List.mem_map.mp he; exact hsumf c hc)
    (by intro e he; obtain ⟨c, hc, rfl⟩ := List.mem_map.mp he; exact hbookf c hc)
    (by intro e he; obtain ⟨c, hc, rfl⟩ := List.mem_map.mp he; exact hintrof c hc)
    (by intro e he; obtain ⟨c, hc, rfl⟩ := List.mem_map.mp he; exact hskipf c hc)
  have hsorted : sortedCandidates (dirFS croot (chs.map fun c =>
      (newChapterFileName c.1 c.2.1, newChapterContent c.1 c.2.1 c.2.2))) croot
      = chs.map (fun c => croot ++ [newChapterFileName c.1 c.2.1]) := by
    unfold sortedCandidates
    rw [hcoll, List.map_map]
    have hpw : List.Pairwise (fun a b => pathLtB b a = false)
        (chs.map (fun c => croot ++ [newChapterFileName c.1 c.2.1])) :=
      List.Pairwise.map _ (fun a b hab => (pathLtB_written_lt hab).2) hmono
    exact stableSortBy_sorted pathLtB _ hpw
  have hfe : firstExistingIntro (dirFS croot (chs.map fun c =>
      (newChapterFileName c.1 c.2.1, newChapterContent c.1 c.2.1 c.2.2))) croot
      = none := by
    unfold firstExistingIntro
    have hfind : introFilesList.find? (fun nm => pathExists (dirFS croot (chs.map fun c =>
        (newChapterFileName c.1 c.2.1, newChapterContent c.1 c.2.1 c.2.2)))
        (croot ++ [nm])) = none := by
      rw [List.find?_eq_none]
      intro x hx
      rw [pathExists_dirFS]
      intro hcontra
      rw [List.any_eq_true] at hcontra
      obtain ⟨e, he, hbeq⟩ := hcontra
      obtain ⟨c, hc, rfl⟩ := List.mem_map.mp he
      rw [beq_iff_eq] at hbeq
      rw [hbeq] at hx
      exact hintrof c hc hx
    rw [hfind]
    rfl
  have hintroCh : autoIntroChapters (dirFS croot (chs.map fun c =>
      (newChapterFileName c.1 c.2.1, newChapterContent c.1 c.2.1 c.2.2))) croot
      = .ok [] := by
    unfold autoIntroChapters
    rw [hfe]
  have hloop := autoLoop_spec (dirFS croot (chs.map fun c =>
      (newChapterFileName c.1 c.2.1, newChapterContent c.1 c.2.1 c.2.2)))
    (chs.map fun c => (croot ++ [newChapterFileName c.1 c.2.1], Yaml.str c.1,
      Chapter.mk (c.2.1 : Int) (Yaml.str c.1)
        (croot ++ [newChapterFileName c.1 c.2.1]) false (Yaml.bool false) Yaml.nil
        (some (pyStr (parseScalar (String.mk (stripL
          (' ' :: (sq.data ++ c.2.2.data ++ sq.data)))))))
        (Yaml.dict
          [("chapter", Yaml.int (c.2.1 : Int)),
           ("date", parseScalar (String.mk (stripL
             (' ' :: (sq.data ++ c.2.2.data ++ sq.data))))),
           ("title", Yaml.str c.1)])))
    0 []
    (by
      intro i hi
      obtain ⟨c, hc, rfl⟩ := List.mem_map.mp hi
      simp only [lastName_snoc]
      exact hskipf c hc)
    (by
      intro i hi
      obtain ⟨c, hc, rfl⟩ := List.mem_map.mp hi
      exact hat c hc)
    (by
      intro i hi
      obtain ⟨c, hc, rfl⟩ := List.mem_map.mp hi
      exact henr c hc)
    (by
      intro i hi
      obtain ⟨c, hc, rfl⟩ := List.mem_map.mp hi
      rfl)
    (by
      intro i hi c hc
      cases hc)
    (List.Pairwise.map _ (fun a b hab => written_path_ne (Nat.ne_of_lt hab)) hmono)
  rw [List.map_map, List.map_map] at hloop
  have hloop2 : autoLoop (dirFS croot (chs.map fun c =>
      (newChapterFileName c.1 c.2.1, newChapterContent c.1 c.2.1 c.2.2)))
      (chs.map (fun c => croot ++ [newChapterFileName c.1 c.2.1])) 0 []
      = .ok (chs.map fun c => Chapter.mk (c.2.1 : Int) (Yaml.str c.1)
          (croot ++ [newChapterFileName c.1 c.2.1]) false (Yaml.bool false) Yaml.nil
          (some (pyStr (parseScalar (String.mk (stripL
            (' ' :: (sq.data ++ c.2.2.data ++ sq.data)))))))
          (Yaml.dict
            [("chapter", Yaml.int (c.2.1 : Int)),
             ("date", parseScalar (String.mk (stripL
               (' ' :: (sq.data ++ c.2.2.data ++ sq.data))))),
             ("title", Yaml.str c.1)])) := hloop
  have hauto : autoDetect (dirFS croot (chs.map fun c =>
      (newChapterFileName c.1 c.2.1, newChapterContent c.1 c.2.1 c.2.2))) croot
      = .ok (BookStructure.mk "auto" Yaml.nil Yaml.nil
          (chs.map fun c => Chapter.mk (c.2.1 : Int) (Yaml.str c.1)
            (croot ++ [newChapterFileName c.1 c.2.1]) false (Yaml.bool false) Yaml.nil
            (some (pyStr (parseScalar (String.mk (stripL
              (' ' :: (sq.data ++ c.2.2.data ++ sq.data)))))))
            (Yaml.dict
              [("chapter", Yaml.int (c.2.1 : Int)),
               ("date", parseScalar (String.mk (stripL
                 (' ' :: (sq.data ++ c.2.2.data ++ sq.data))))),
               ("title", Yaml.str c.1)])) croot) := by
    unfold autoDetect
    simp only [hintroCh, except_bind_ok, hsorted, hloop2, except_pure]
  refine ⟨_, hauto, ?_⟩
  rw [List.map_map]
  rfl

/-- C9 witness: a four-chapter writer directory exercising a plain title, a
digit-leading title with a comma, a quoted reserved word and a quoted digit
run. -/
theorem c9_theorem_witness :
    (∀ c ∈ ([("Getting Started", 1, "2026-10-12"),
        ("2001 A Space Odyssey, Part 1", 2, "2026-10-12"),
        ("yes", 3, "2026-10-12"),
        ("123", 4, "2026-10-12")] : List (String × Nat × String)),
      goodTitle c.1 = true) ∧
    (∀ c ∈ ([("Getting Started", 1, "2026-10-12"),
        ("2001 A Space Odyssey, Part 1", 2, "2026-10-12"),
        ("yes", 3, "2026-10-12"),
        ("123", 4, "2026-10-12")] : List (String × Nat × String)), 1 ≤ c.2.1) ∧
    List.Pairwise (fun a b => a.2.1 < b.2.1)
      ([("Getting Started", 1, "2026-10-12"),
        ("2001 A Space Odyssey, Part 1", 2, "2026-10-12"),
        ("yes", 3, "2026-10-12"),
        ("123", 4, "2026-10-12")] : List (String × Nat × String)) ∧
    (∃ s, autoDetect (dirFS ["c"]
        (([("Getting Started", 1, "2026-10-12"),
           ("2001 A Space Odyssey, Part 1", 2, "2026-10-12"),
           ("yes", 3, "2026-10-12"),
           ("123", 4, "2026-10-12")] : List (String × Nat × String)).map fun c =>
          (newChapterFileName c.1 c.2.1, newChapterContent c.1 c.2.1 c.2.2))) ["c"]
        = .ok s ∧
      s.chapters.map (fun c => (c.number, c.title)) =
        ([("Getting Started", 1, "2026-10-12"),
          ("2001 A Space Odyssey, Part 1", 2, "2026-10-12"),
          ("yes", 3, "2026-10-12"),
          ("123", 4, "2026-10-12")] : List (String × Nat × String)).map
          (fun c => ((c.2.1 : Int), Yaml.str c.1))) :=
  ⟨by decide, by decide, by decide,
    c9_theorem ["c"] _ (by decide) (by decide) (by decide)⟩

/-- C10 witness: a concrete `book.toml` with a parsed title, no nested
manifest; the detection result is the metadata-free auto structure. -/
theorem c10_witness :
    detectStructure fs10 ["b"] = autoDetect fs10 ["b"] ∧
      ((autoDetect fs10 ["b"]).toOption.getD blankStructure).title = Yaml.nil := by
  have h := c10_theorem fs10 ["b"] ["[book]", "title = \"T\""] rfl rfl rfl rfl rfl rfl
    (by decide)
  exact ⟨h.1, (h.2 _ rfl).2.1⟩

end MdBook
